import Mathlib

/-!
# gorm-cache: the Redis data layer (`data_layer/redis.go`)

A shallow embedding of `RedisLayer` and of the two Lua scripts it registers.
The Redis server is modelled by the keys it holds (`Store`), a script is a
function from the store to its reply, the `redis.call` commands it issued and
the store it leaves behind.
-/

namespace GormCache

/-! ## The store and the commands a script may issue -/

/-- The entries held by the Redis server: key and value, in the order in which
`KEYS` enumerates them. -/
abbrev Store := List (String × String)

/-- One `redis.call(...)` issued by a script. -/
inductive RedisCall where
  | EXISTS (key : String)
  | KEYS (pattern : String)
  | DEL (names : List String)
  deriving DecidableEq, Repr

/-- Reply of `EXISTS key`: 1 when the key is held, 0 otherwise. -/
def Store.EXISTS (s : Store) (key : String) : Int :=
  if s.any (fun e => e.1 == key) then 1 else 0

/-- Effect of `DEL name ...`: every named key is removed. -/
def Store.DEL (s : Store) (names : List String) : Store :=
  s.filter (fun e => !(names.contains e.1))

/-- Reply of `KEYS pattern`: the keys held that the server's matcher `glob`
accepts, in the store's order. -/
def Store.KEYS (glob : String → String → Bool) (s : Store) (pattern : String) : List String :=
  (s.filter (fun e => glob pattern e.1)).map (fun e => e.1)

/-- Whether the key is held by the store. -/
def Store.has (s : Store) (key : String) : Bool :=
  s.any (fun e => e.1 == key)

/-- What a script run yields: the reply, the commands issued in order, and the
store afterwards. -/
structure ScriptResult where
  reply : Int
  trace : List RedisCall
  store : Store
  deriving DecidableEq, Repr

/-! ## `batchKeyExistScript`

```
for idx, val in pairs(KEYS) do
  local exists = redis.call('EXISTS', val)
  if exists == 0 then return 0 end
end
return 1
```
`KEYS` is an array, traversed in index order. -/

/-- The batch-exists script run on `KEYS`. -/
def batchKeyExistScript (store : Store) : List String → ScriptResult
  | [] => ⟨1, [], store⟩
  | val :: rest =>
    let exists_ := store.EXISTS val
    if exists_ == 0 then
      ⟨0, [RedisCall.EXISTS val], store⟩
    else
      let r := batchKeyExistScript store rest
      ⟨r.reply, RedisCall.EXISTS val :: r.trace, r.store⟩

/-! ## `cleanCacheScript`

```
local keys = redis.call('keys', ARGV[1])
for i=1,#keys,5000 do
  redis.call('del', 'defaultKey', unpack(keys, i, math.min(i+4999, #keys)))
end
return 1
```
-/

/-- Lua `unpack(t, i, j)`: the elements `t[i], ..., t[j]` (1-based, inclusive). -/
def unpack (t : List String) (i j : Nat) : List String :=
  (t.drop (i - 1)).take (j + 1 - i)

/-- The numeric `for i=i,#keys,5000` loop of the clean-cache script, from index
`i` on: the `del` commands it issues, in order. -/
def cleanCacheLoop (keys : List String) (i : Nat) : List RedisCall :=
  if i ≤ keys.length then
    RedisCall.DEL ("defaultKey" :: unpack keys i (min (i + 4999) keys.length))
      :: cleanCacheLoop keys (i + 5000)
  else []
termination_by keys.length + 1 - i
decreasing_by omega

/-- Effect of one issued command on the store (`EXISTS` and `KEYS` only read). -/
def RedisCall.apply (s : Store) : RedisCall → Store
  | RedisCall.DEL names => s.DEL names
  | _ => s

/-- The clean-cache script run with `ARGV[1] = pattern`; `glob pattern key`
is the server's `KEYS` pattern matcher. -/
def cleanCacheScript (glob : String → String → Bool) (store : Store)
    (pattern : String) : ScriptResult :=
  let keys := store.KEYS glob pattern
  let dels := cleanCacheLoop keys 1
  ⟨1, RedisCall.KEYS pattern :: dels, dels.foldl RedisCall.apply store⟩

/-! ## The server's `KEYS` pattern matcher

A model of the glob matcher the Redis server applies to `KEYS pattern`
(`stringmatchlen`, case-sensitive): `*`, `?`, bracket classes with ranges and
`^` negation, and `\` escapes. -/

/-- Scan of a bracket class for the character `c`, after the opening `[` (and
`^`): whether some item matched so far, and the pattern left after the
closing `]`. -/
def matchClass (c : Char) : List Char → Bool → Bool × List Char
  | [], m => (m, [])
  | '\\' :: x :: rest, m => matchClass c rest (m || x == c)
  | ']' :: rest, m => (m, rest)
  | a :: '-' :: b :: rest, m =>
    matchClass c rest (m || (min a b ≤ c && c ≤ max a b))
  | a :: rest, m => matchClass c rest (m || a == c)

/-- The pattern matcher on character lists. Once the string is used up, the
stars left at the head of the pattern are skipped and the pattern must be
used up too. -/
def stringmatchlen (pat str : List Char) : Bool :=
  match pat, str with
  | [], s => s.isEmpty
  | _ :: _, [] => false
  | '*' :: ps, c :: cs =>
    let ps1 := ps.dropWhile (fun x => x == '*')
    if ps1.isEmpty then true
    else (c :: cs).tails.any (fun s => !s.isEmpty && stringmatchlen ps1 s)
  | '?' :: ps, _ :: cs =>
    if cs.isEmpty then (ps.dropWhile (fun x => x == '*')).isEmpty else stringmatchlen ps cs
  | '[' :: ps, c :: cs =>
    let neg := ps.head? == some '^'
    let body := if neg then ps.tail else ps
    let r := matchClass c body false
    if (r.1 != neg) then
      (if cs.isEmpty then (r.2.dropWhile (fun x => x == '*')).isEmpty else stringmatchlen r.2 cs)
    else false
  | '\\' :: x :: ps, c :: cs =>
    if x == c then
      (if cs.isEmpty then (ps.dropWhile (fun x => x == '*')).isEmpty else stringmatchlen ps cs)
    else false
  | p :: ps, c :: cs =>
    if p == c then
      (if cs.isEmpty then (ps.dropWhile (fun x => x == '*')).isEmpty else stringmatchlen ps cs)
    else false
termination_by pat.length
decreasing_by
  all_goals simp_wf
  · have h : ∀ l : List Char, (l.dropWhile (fun x => x == '*')).length ≤ l.length := by
      intro l
      induction l with
      | nil => simp
      | cons a l ih =>
        simp only [List.dropWhile_cons]
        split
        · simp only [List.length_cons]; omega
        · exact Nat.le_refl _
    have := h ps
    omega
  · have h : ∀ (p : List Char) (m : Bool), (matchClass c p m).2.length ≤ p.length := by
      intro p m
      induction p, m using matchClass.induct c with
      | case1 _ => simp [matchClass]
      | case2 x rest m ih => simp only [matchClass, List.length_cons]; omega
      | case3 rest m => simp [matchClass]
      | case4 a b rest m h1 h2 ih =>
        rw [matchClass]
        · simp only [List.length_cons]; omega
        all_goals assumption
      | case5 a rest m h1 h2 h3 ih =>
        rw [matchClass]
        · simp only [List.length_cons]; omega
        all_goals assumption
    have h1 := h (if ps.head? = some '^' then ps.tail else ps) false
    have h2 : (if ps.head? = some '^' then ps.tail else ps).length ≤ ps.length := by
      split
      · simp
      · exact Nat.le_refl _
    omega
  all_goals omega

/-- `KEYS pattern` applied to one key. -/
def stringmatch (pattern key : String) : Bool :=
  stringmatchlen pattern.toList key.toList

/-- The characters with a special meaning in a pattern. -/
def isGlobSpecial (c : Char) : Bool :=
  c == '*' || c == '?' || c == '[' || c == '\\'

/-! ## The server and the data layer -/

/-- A Go `error` value, by its message; `Option GoError` is a possibly nil error. -/
abbrev GoError := String

/-- The two scripts `initScripts` registers. -/
inductive Script where
  | batchKeyExist
  | cleanCache
  deriving DecidableEq, Repr

/-- The Redis server: its entries and its script cache (reference to script). -/
structure Server where
  store : Store
  scripts : List (String × Script)
  deriving DecidableEq, Repr

/-- The fields of `RedisLayer` that its methods read. `client` stands for both
`r` and `client`, the connection and the adapter over it (`none` is nil); the
logger only writes log lines and is left out. -/
structure RedisLayer where
  client : Option Nat
  ttl : Int
  keyPrefix : String
  batchExistSha : String
  cleanCacheSha : String
  deriving DecidableEq, Repr

/-- Server side of `EVALSHA sha numkeys KEYS... ARGV...`: the referenced
script is run on the store; an unknown reference is an error. -/
def Server.evalSha (glob : String → String → Bool) (srv : Server) (sha : String)
    (keys args : List String) : Except GoError ScriptResult :=
  match srv.scripts.lookup sha with
  | none => Except.error "NOSCRIPT No matching script. Please use EVAL."
  | some Script.batchKeyExist => Except.ok (batchKeyExistScript srv.store keys)
  | some Script.cleanCache =>
    match args with
    | [] => Except.error "ERR Lua redis() command arguments must be strings or integers"
    | pattern :: _ => Except.ok (cleanCacheScript glob srv.store pattern)

/-- `RedisLayer.BatchKeyExist`: `EvalSha(batchExistSha, keys)`; an error gives
`(false, err)`, otherwise the integer reply is read as a boolean
(`result.Bool()`). -/
def RedisLayer.BatchKeyExist (glob : String → String → Bool) (r : RedisLayer)
    (srv : Server) (keys : List String) : Bool × Option GoError :=
  match srv.evalSha glob r.batchExistSha keys [] with
  | Except.error e => (false, some e)
  | Except.ok res => (res.reply != 0, none)

/-- `RedisLayer.DeleteKeysWithPrefix`: `EvalSha(cleanCacheSha, ["0"],
keyPrefix+":*")`, returning the call's error; the server is returned with the
store the script left. -/
def RedisLayer.DeleteKeysWithPrefix (glob : String → String → Bool) (r : RedisLayer)
    (srv : Server) (keyPrefix : String) : Server × Option GoError :=
  match srv.evalSha glob r.cleanCacheSha ["0"] [keyPrefix ++ ":*"] with
  | Except.error e => (srv, some e)
  | Except.ok res => ({ srv with store := res.store }, none)

/-- `RedisLayer.CleanCache`: the same script on `r.keyPrefix+":*"`. -/
def RedisLayer.CleanCache (glob : String → String → Bool) (r : RedisLayer)
    (srv : Server) : Server × Option GoError :=
  match srv.evalSha glob r.cleanCacheSha ["0"] [r.keyPrefix ++ ":*"] with
  | Except.error e => (srv, some e)
  | Except.ok res => ({ srv with store := res.store }, none)

/-- The matched keys a command carries: the names of a `del` after its first,
literal name. -/
def RedisCall.carried : RedisCall → List String
  | RedisCall.DEL (_ :: ks) => ks
  | _ => []

/-- The key names of a command. -/
def RedisCall.names : RedisCall → List String
  | RedisCall.DEL ns => ns
  | RedisCall.EXISTS k => [k]
  | RedisCall.KEYS _ => []

/-- Whether the command removes the key. -/
def RedisCall.removes (k : String) : RedisCall → Bool
  | RedisCall.DEL ns => ns.contains k
  | _ => false

/-- Five thousand distinct keys under the prefix `orders`. -/
def keys5000 : List String :=
  (List.range 5000).map (fun n => "orders:" ++ toString n)

/-- A store holding the keys of `keys5000`. -/
def store5000 : Store := keys5000.map (fun k => (k, "v"))

/-! ## Values, errors and the jitter helper

`ttl` is an `int64` and `time.Duration` an `int64` count of nanoseconds; their
products wrap. `util.RandFloatingInt64` is not part of the sources at hand: the
methods take it as the parameter `jitter`, where `jitter d v` is what its
`d`-th call in the process returns on the base value `v` (every call is a
fresh draw). -/

/-- Two's-complement wrap of an integer to `int64`. -/
def wrapInt64 (x : Int) : Int :=
  (x + 2 ^ 63) % 2 ^ 64 - 2 ^ 63

/-- `time.Millisecond`, in nanoseconds. -/
def Millisecond : Int := 1000000

/-- Modelled from the spec: `util.Kv` is missing from the sources at hand; the
spec's entry is a string key mapped to a string value, and `BatchSetKeys` and
`SetKey` read its fields `Key` and `Value`. -/
structure Kv where
  Key : String
  Value : String
  deriving DecidableEq, Repr

/-- A command built with `r.r.B().Set().Key(k).Value(v).ExSeconds(s).Build()`:
`SET k v EX s`. -/
structure SetEx where
  key : String
  value : String
  exSeconds : Int
  deriving DecidableEq, Repr

/-- A call made on the store connection. Durations are in nanoseconds. -/
inductive ClientCall where
  | Set (key value : String) (expiration : Int)
  | MSet (values : List String)
  | DoMulti (cmds : List SetEx)
  | MGetCache (ttl : Int) (keys : List String)
  deriving DecidableEq, Repr

/-- What a method did and returned: the calls made on the connection, the
arguments of its calls to `util.RandFloatingInt64`, and the returned error. -/
structure WriteResult where
  calls : List ClientCall
  jitterCalls : List Int
  err : Option GoError
  deriving DecidableEq, Repr

/-- `RedisLayer.SetKey`: one `Set` whose expiration is
`time.Duration(util.RandFloatingInt64(r.ttl)) * time.Millisecond`; `draw` is the
index of the next jitter draw and `resp` the error of the `Set` call. -/
def RedisLayer.SetKey (jitter : Nat → Int → Int) (r : RedisLayer) (draw : Nat) (kv : Kv)
    (resp : Option GoError) : WriteResult :=
  let expiration := wrapInt64 (jitter draw r.ttl * Millisecond)
  ⟨[ClientCall.Set kv.Key kv.Value expiration], [r.ttl], resp⟩

/-- The loop of `BatchSetKeys` that appends each key and then its value to
`spreads`. -/
def spreadLoop : List Kv → List String → List String
  | [], spreads => spreads
  | kv :: rest, spreads => spreadLoop rest ((spreads ++ [kv.Key]) ++ [kv.Value])

/-- The loop of `BatchSetKeys` that appends one built `SET ... EX ttl*1000` per
pair to `cmds`. -/
def cmdLoop (ttl : Int) : List Kv → List SetEx → List SetEx
  | [], cmds => cmds
  | kv :: rest, cmds => cmdLoop ttl rest (cmds ++ [⟨kv.Key, kv.Value, wrapInt64 (ttl * 1000)⟩])

/-- The scan of the `DoMulti` responses: the first error met is returned. -/
def firstError : List (Option GoError) → Option GoError
  | [] => none
  | some e :: _ => some e
  | none :: rest => firstError rest

/-- `RedisLayer.BatchSetKeys`: with `ttl == 0` a single `MSet` of the flattened
pairs, whose error `msetResp` is returned; otherwise one `DoMulti` of the built
commands, whose responses `multiResp` are scanned for the first error. -/
def RedisLayer.BatchSetKeys (r : RedisLayer) (kvs : List Kv) (msetResp : Option GoError)
    (multiResp : List (Option GoError)) : WriteResult :=
  if r.ttl == 0 then
    ⟨[ClientCall.MSet (spreadLoop kvs [])], [], msetResp⟩
  else
    ⟨[ClientCall.DoMulti (cmdLoop r.ttl kvs [])], [], firstError multiResp⟩

/-! ## `BatchGetValues` -/

/-- How a Go call ends: it returns, or it panics. -/
inductive Outcome (α : Type) where
  | returned (a : α)
  | panicked (msg : String)
  deriving DecidableEq, Repr

/-- A `rueidis.RedisMessage`, by what `Error()` and `ToString()` return on it. -/
structure RedisMessage where
  Error : Option GoError
  ToString : Except GoError String

/-- The loop of `BatchGetValues` over the fetched results, in the order in
which `range` visits them. `err` is the error variable of the enclosing
function, nil once the fetch has succeeded: the branch for an entry with an
error evaluates `err.Error()` on it. -/
def BatchGetValuesLoop (err : Option GoError) :
    List RedisMessage → List String → Outcome (Option (List String) × Option GoError)
  | [], strs => Outcome.returned (some strs, none)
  | obj :: rest, strs =>
    match obj.Error with
    | some _ =>
      match err with
      | none => Outcome.panicked "invalid memory address or nil pointer dereference"
      | some e => Outcome.returned (none, some e)
    | none =>
      match obj.ToString with
      | Except.error e => Outcome.returned (none, some e)
      | Except.ok v => BatchGetValuesLoop err rest (strs ++ [v])

/-- What `BatchGetValues` did and how it ended. -/
structure ReadResult where
  calls : List ClientCall
  jitterCalls : List Int
  outcome : Outcome (Option (List String) × Option GoError)

/-- `RedisLayer.BatchGetValues`: one `MGetCache` with a jittered cache
duration; `fetch` is what it returned, an error or the map from key to message
listed as `range` visits it. -/
def RedisLayer.BatchGetValues (jitter : Nat → Int → Int) (r : RedisLayer) (draw : Nat)
    (keys : List String) (fetch : Except GoError (List (String × RedisMessage))) :
    ReadResult :=
  let ttl := wrapInt64 (jitter draw r.ttl * Millisecond)
  { calls := [ClientCall.MGetCache ttl keys]
    jitterCalls := [r.ttl]
    outcome :=
      match fetch with
      | Except.error e => Outcome.returned (none, some e)
      | Except.ok result => BatchGetValuesLoop none (result.map (fun kv => kv.2)) [] }

/-- Modelled from the spec: `util.RandFloatingInt64` is missing from the sources
at hand. The spec describes the jittered duration as "uniformly randomized
within a band around the base value (e.g., base ± configurable spread)",
"never less than zero", with base 0 meaning no expiration. The band taken here
is base ± 10%: the `d`-th draw scales the base by a factor from 0.90 to 1.10. -/
def RandFloatingInt64 (d : Nat) (v : Int) : Int :=
  v * (90 + ((d % 21 : Nat) : Int)) / 100

/-! ## What the fetch of `BatchGetValues` returns

`rueidis.MGetCache` returns a `map[string]RedisMessage`: one entry per distinct
requested key. Go leaves the order in which `range` visits a map unspecified,
so every permutation of the entries is a possible visiting order. -/

/-- The value held under a key. -/
def Store.get (s : Store) (k : String) : Option String :=
  s.lookup k

/-- Effect of `SET k v` on the store. -/
def Store.SET (s : Store) (k v : String) : Store :=
  if s.has k then s.map (fun e => if e.1 == k then (k, v) else e) else s ++ [(k, v)]

/-- Effect of `MSET k v k v ...` on the store. -/
def Store.MSET (s : Store) : List String → Store
  | k :: v :: rest => (s.SET k v).MSET rest
  | _ => s

/-- The message of a `GET`: the value, or the nil message, which is an error
for both `Error()` and `ToString()`. -/
def messageOf : Option String → RedisMessage
  | some v => ⟨none, Except.ok v⟩
  | none => ⟨some "redis nil message", Except.error "redis nil message"⟩

/-- The entries of the map `MGetCache` returns for `keys` on the store, each
distinct key listed once. -/
def MGetCacheEntries (s : Store) (keys : List String) : List (String × RedisMessage) :=
  keys.dedup.map (fun k => (k, messageOf (s.get k)))

/-- Effect of a call of the connection on the store (expirations are not
tracked; a fetch only reads). -/
def ClientCall.apply (s : Store) : ClientCall → Store
  | ClientCall.Set k v _ => s.SET k v
  | ClientCall.MSet values => s.MSET values
  | ClientCall.DoMulti cmds => cmds.foldl (fun st c => st.SET c.key c.value) s
  | ClientCall.MGetCache _ _ => s

/-- The string a message converts to, empty when `ToString()` fails. -/
def RedisMessage.value (m : RedisMessage) : String :=
  match m.ToString with
  | Except.ok v => v
  | Except.error _ => ""

/-- The pairs written one after another with `SET`. -/
def Store.setAll (s : Store) (kvs : List Kv) : Store :=
  kvs.foldl (fun st kv => st.SET kv.Key kv.Value) s

/-! ## Initialization

The connection side is a test double: it counts the clients constructed and
records the `ScriptLoad` calls it receives, and answers the `n`-th call of each
kind as `StoreDouble` says. -/

/-- `config.RedisConfigMode`. -/
abbrev RedisConfigMode := Int

/-- `config.RedisConfigModeOptions`. -/
def RedisConfigModeOptions : RedisConfigMode := 0

/-- `config.RedisConfigModeRaw`. -/
def RedisConfigModeRaw : RedisConfigMode := 1

/-- `config.RedisConfig`: the mode, the client options (kept as a string), the
client, and whether `once` has fired. -/
structure RedisConfig where
  Mode : RedisConfigMode
  Options : String
  Client : Option Nat
  onceDone : Bool
  deriving DecidableEq, Repr

/-- Modelled from the spec: `config.CacheConfig` is missing from the sources at
hand; the spec lists the configuration consumed as the base TTL in
milliseconds, the debug-logging toggle and the store connection settings.
These are the fields `Init` reads (the logger is left out). -/
structure CacheConfig where
  RedisConfig : RedisConfig
  CacheTTL : Int
  DebugMode : Bool
  deriving DecidableEq, Repr

/-- What the connection side has seen so far. -/
structure Conn where
  newClientCalls : Nat
  scriptLoads : List Script
  deriving DecidableEq, Repr

/-- The answers of the connection side: `NewClient n options` to the `n`-th
client construction, `ScriptLoad n script` to the `n`-th script registration
(counted from 0). -/
structure StoreDouble where
  NewClient : Nat → String → Except GoError Nat
  ScriptLoad : Nat → Script → Except GoError String

/-- `RedisLayer.initScripts`: the batch-exists script is loaded; on an error it
is returned at once; otherwise the reference is stored and the clean-cache
script is loaded in the same way. On a layer whose client is nil the first
`r.client.ScriptLoad` panics before anything reaches the store. -/
def RedisLayer.initScripts (env : StoreDouble) (w : Conn) (r : RedisLayer) :
    Outcome (Conn × RedisLayer × Option GoError) :=
  match r.client with
  | none => Outcome.panicked "invalid memory address or nil pointer dereference"
  | some _ =>
    let result := env.ScriptLoad w.scriptLoads.length Script.batchKeyExist
    let w1 : Conn := ⟨w.newClientCalls, w.scriptLoads ++ [Script.batchKeyExist]⟩
    match result with
    | Except.error e => Outcome.returned (w1, r, some e)
    | Except.ok sha1 =>
      let r1 : RedisLayer := ⟨r.client, r.ttl, r.keyPrefix, sha1, r.cleanCacheSha⟩
      let result2 := env.ScriptLoad w1.scriptLoads.length Script.cleanCache
      let w2 : Conn := ⟨w1.newClientCalls, w1.scriptLoads ++ [Script.cleanCache]⟩
      match result2 with
      | Except.error e => Outcome.returned (w2, r1, some e)
      | Except.ok sha2 =>
        Outcome.returned
          (w2, ⟨r1.client, r1.ttl, r1.keyPrefix, r1.batchExistSha, sha2⟩, none)

/-- `RedisLayer.Init`: in options mode a client is constructed with
`rueidis.NewClient` (a failure panics), otherwise the configured client is
taken as it is, nil included; then the TTL and the key prefix `pfx` are stored
and `initScripts` runs. -/
def RedisLayer.Init (env : StoreDouble) (w : Conn) (r : RedisLayer) (conf : CacheConfig)
    (pfx : String) : Outcome (Conn × RedisLayer × Option GoError) :=
  if conf.RedisConfig.Mode == RedisConfigModeOptions then
    match env.NewClient w.newClientCalls conf.RedisConfig.Options with
    | Except.error e => Outcome.panicked e
    | Except.ok client =>
      RedisLayer.initScripts env ⟨w.newClientCalls + 1, w.scriptLoads⟩
        ⟨some client, conf.CacheTTL, pfx, r.batchExistSha, r.cleanCacheSha⟩
  else
    RedisLayer.initScripts env w
      ⟨conf.RedisConfig.Client, conf.CacheTTL, pfx, r.batchExistSha, r.cleanCacheSha⟩

/-- `RedisConfig.InitClient`: under `once`, in options mode, a client is
constructed and stored (a failure panics); the stored client is returned. -/
def RedisConfig.InitClient (env : StoreDouble) (w : Conn) (c : RedisConfig) :
    Outcome (Conn × RedisConfig × Option Nat) :=
  if c.onceDone then Outcome.returned (w, c, c.Client)
  else if c.Mode == RedisConfigModeOptions then
    match env.NewClient w.newClientCalls c.Options with
    | Except.error e => Outcome.panicked e
    | Except.ok client =>
      Outcome.returned (⟨w.newClientCalls + 1, w.scriptLoads⟩,
        ⟨c.Mode, c.Options, some client, true⟩, some client)
  else Outcome.returned (w, ⟨c.Mode, c.Options, c.Client, true⟩, c.Client)

/-- `Init` invoked `n` times one after another on the same layer and
configuration. -/
def RedisLayer.InitTimes (env : StoreDouble) (conf : CacheConfig) (pfx : String) :
    Nat → Conn → RedisLayer → Outcome (Conn × RedisLayer)
  | 0, w, r => Outcome.returned (w, r)
  | n + 1, w, r =>
    match RedisLayer.Init env w r conf pfx with
    | Outcome.panicked m => Outcome.panicked m
    | Outcome.returned res => RedisLayer.InitTimes env conf pfx n res.1 res.2.1

/-- A connection side on which every construction and every load succeeds; a
script is answered with a reference that depends on the script alone. -/
def okDouble : StoreDouble where
  NewClient := fun n _ => Except.ok n
  ScriptLoad := fun _ s =>
    match s with
    | Script.batchKeyExist => Except.ok "sha-batch-exist"
    | Script.cleanCache => Except.ok "sha-clean-cache"

/-- A connection side on which every construction and every load succeeds; the
`n`-th load is answered with a reference of its own. -/
def countingDouble : StoreDouble where
  NewClient := fun n _ => Except.ok n
  ScriptLoad := fun n _ => Except.ok ("sha-" ++ toString n)

/-- A connection side on which the first load succeeds and the second fails. -/
def secondLoadFails : StoreDouble where
  NewClient := fun n _ => Except.ok n
  ScriptLoad := fun n _ => if n == 0 then Except.ok "sha-batch-exist" else Except.error "EOF"

/-! ## Lemmas on the store and the scripts -/

theorem Store.EXISTS_eq (s : Store) (key : String) :
    s.EXISTS key = if s.has key then 1 else 0 := rfl

theorem batchKeyExistScript_reply (store : Store) (keys : List String) :
    (batchKeyExistScript store keys).reply = if keys.all (fun k => store.has k) then 1 else 0 := by
  induction keys with
  | nil => simp [batchKeyExistScript]
  | cons k rest ih =>
    simp only [batchKeyExistScript, Store.EXISTS_eq, List.all_cons]
    by_cases h : store.has k = true <;> simp [h, ih]

theorem batchKeyExistScript_trace (store : Store) (keys : List String) :
    (batchKeyExistScript store keys).trace =
      (keys.takeWhile (fun k => store.has k) ++
        (keys.dropWhile (fun k => store.has k)).take 1).map RedisCall.EXISTS := by
  induction keys with
  | nil => simp [batchKeyExistScript]
  | cons k rest ih =>
    simp only [batchKeyExistScript, Store.EXISTS_eq, List.takeWhile_cons, List.dropWhile_cons]
    by_cases h : store.has k = true <;> simp [h, ih]

theorem batchKeyExistScript_store (store : Store) (keys : List String) :
    (batchKeyExistScript store keys).store = store := by
  induction keys with
  | nil => simp [batchKeyExistScript]
  | cons k rest ih =>
    simp only [batchKeyExistScript, Store.EXISTS_eq]
    by_cases h : store.has k = true <;> simp [h, ih]

theorem unpack_length (t : List String) (i : Nat) (hi : 1 ≤ i) (hin : i ≤ t.length) :
    (unpack t i (min (i + 4999) t.length)).length = min 5000 (t.length + 1 - i) := by
  simp only [unpack, List.length_take, List.length_drop]
  omega

theorem cleanCacheLoop_carried (keys : List String) (i : Nat) (hi : 1 ≤ i) :
    ((cleanCacheLoop keys i).map RedisCall.carried).flatten = keys.drop (i - 1) := by
  induction i using cleanCacheLoop.induct keys with
  | case1 i hle ih =>
    rw [cleanCacheLoop, if_pos hle]
    simp only [List.map_cons, List.flatten_cons, RedisCall.carried, unpack]
    rw [ih (by omega)]
    by_cases hbig : i + 4999 ≤ keys.length
    · have h1 : i + 5000 - 1 = (i - 1) + 5000 := by omega
      have h2 : min (i + 4999) keys.length + 1 - i = 5000 := by omega
      rw [h1, ← List.drop_drop, h2, List.take_append_drop]
    · have h3 : (keys.drop (i - 1)).length ≤ min (i + 4999) keys.length + 1 - i := by
        rw [List.length_drop]; omega
      rw [List.take_of_length_le h3,
        List.drop_of_length_le (show keys.length ≤ i + 5000 - 1 by omega)]
      simp
  | case2 i hgt =>
    rw [cleanCacheLoop, if_neg hgt]
    simp only [List.map_nil, List.flatten_nil]
    symm
    apply List.drop_of_length_le
    omega

theorem cleanCacheLoop_length (keys : List String) (i : Nat) (hi : 1 ≤ i) :
    (cleanCacheLoop keys i).length = (keys.length + 5000 - i) / 5000 := by
  induction i using cleanCacheLoop.induct keys with
  | case1 i hle ih =>
    rw [cleanCacheLoop, if_pos hle, List.length_cons, ih (by omega)]
    omega
  | case2 i hgt =>
    rw [cleanCacheLoop, if_neg hgt, List.length_nil]
    omega

theorem cleanCacheLoop_mem (keys : List String) (i : Nat) (hi : 1 ≤ i) (d : RedisCall)
    (hd : d ∈ cleanCacheLoop keys i) :
    ∃ chunk, d = RedisCall.DEL ("defaultKey" :: chunk) ∧ 1 ≤ chunk.length ∧
      chunk.length ≤ 5000 := by
  induction i using cleanCacheLoop.induct keys with
  | case1 i hle ih =>
    rw [cleanCacheLoop, if_pos hle, List.mem_cons] at hd
    rcases hd with hd | hd
    · refine ⟨_, hd, ?_, ?_⟩
      · rw [unpack_length keys i hi hle]; omega
      · rw [unpack_length keys i hi hle]; omega
    · exact ih (by omega) hd
  | case2 i hgt =>
    rw [cleanCacheLoop, if_neg hgt] at hd
    cases hd

theorem Store.DEL_has (s : Store) (names : List String) (k : String) :
    (s.DEL names).has k = (s.has k && !(names.contains k)) := by
  rw [Bool.eq_iff_iff]
  simp only [Store.DEL, Store.has, List.any_eq_true, List.mem_filter, beq_iff_eq,
    Bool.and_eq_true, Bool.not_eq_true', List.contains_eq_any_beq, List.any_eq_false,
    Prod.exists, Bool.not_eq_eq_eq_not, Bool.not_true]
  constructor
  · rintro ⟨a, b, ⟨hmem, hn⟩, rfl⟩
    exact ⟨⟨a, b, hmem, rfl⟩, hn⟩
  · rintro ⟨⟨a, b, hmem, rfl⟩, hn⟩
    exact ⟨a, b, ⟨hmem, hn⟩, rfl⟩

theorem foldl_apply_has (dels : List RedisCall) (s : Store) (k : String) :
    (dels.foldl RedisCall.apply s).has k = (s.has k && !(dels.any (RedisCall.removes k))) := by
  induction dels generalizing s with
  | nil => simp
  | cons d rest ih =>
    rw [List.foldl_cons, ih]
    cases d with
    | DEL ns => simp [RedisCall.apply, RedisCall.removes, Store.DEL_has, Bool.and_assoc]
    | EXISTS key => simp [RedisCall.apply, RedisCall.removes]
    | KEYS p => simp [RedisCall.apply, RedisCall.removes]

theorem Store.mem_KEYS (glob : String → String → Bool) (s : Store) (pattern k : String) :
    k ∈ s.KEYS glob pattern ↔ (s.has k = true ∧ glob pattern k = true) := by
  simp only [Store.KEYS, Store.has, List.mem_map, List.mem_filter, List.any_eq_true,
    beq_iff_eq]
  constructor
  · rintro ⟨e, ⟨he, hg⟩, rfl⟩
    exact ⟨⟨e, he, rfl⟩, hg⟩
  · rintro ⟨⟨e, he, rfl⟩, hg⟩
    exact ⟨e, ⟨he, hg⟩, rfl⟩

theorem cleanCacheLoop_deletes (keys : List String) (k : String) (hk : k ≠ "defaultKey") :
    (cleanCacheLoop keys 1).any (RedisCall.removes k) = true ↔ k ∈ keys := by
  have hc := cleanCacheLoop_carried keys 1 (Nat.le_refl 1)
  simp only [Nat.sub_self, List.drop_zero] at hc
  rw [List.any_eq_true]
  constructor
  · rintro ⟨d, hd, hdel⟩
    obtain ⟨chunk, rfl, -, -⟩ := cleanCacheLoop_mem keys 1 (Nat.le_refl 1) d hd
    rw [← hc, List.mem_flatten]
    refine ⟨chunk, List.mem_map.mpr ⟨_, hd, rfl⟩, ?_⟩
    simpa [RedisCall.removes, hk] using hdel
  · intro hmem
    rw [← hc, List.mem_flatten] at hmem
    obtain ⟨l, hl, hkl⟩ := hmem
    obtain ⟨d, hd, rfl⟩ := List.mem_map.mp hl
    refine ⟨d, hd, ?_⟩
    obtain ⟨chunk, rfl, -, -⟩ := cleanCacheLoop_mem keys 1 (Nat.le_refl 1) d hd
    simp only [RedisCall.carried] at hkl
    simp [RedisCall.removes, hkl]

theorem cleanCacheScript_has (glob : String → String → Bool) (s : Store) (pattern k : String)
    (hk : k ≠ "defaultKey") :
    (cleanCacheScript glob s pattern).store.has k = (s.has k && !(glob pattern k)) := by
  have h1 := cleanCacheLoop_deletes (s.KEYS glob pattern) k hk
  rw [Store.mem_KEYS] at h1
  simp only [cleanCacheScript, foldl_apply_has]
  by_cases ha : (cleanCacheLoop (s.KEYS glob pattern) 1).any (RedisCall.removes k) = true
  · obtain ⟨h2, h3⟩ := h1.mp ha
    simp [ha, h2, h3]
  · have ha2 : (cleanCacheLoop (s.KEYS glob pattern) 1).any (RedisCall.removes k) = false := by
      simpa using ha
    rw [ha2]
    by_cases h2 : s.has k = true
    · by_cases h3 : glob pattern k = true
      · exact absurd (h1.mpr ⟨h2, h3⟩) ha
      · simp [h2, h3]
    · simp [h2]

theorem stringmatchlen_literal_cons (a : Char) (ps : List Char) (c : Char) (cs : List Char)
    (ha : isGlobSpecial a = false) :
    stringmatchlen (a :: ps) (c :: cs) =
      (if a == c then
        (if cs.isEmpty then (ps.dropWhile (fun x => x == '*')).isEmpty else stringmatchlen ps cs)
       else false) := by
  simp only [isGlobSpecial, Bool.or_eq_false_iff, beq_eq_false_iff_ne, ne_eq] at ha
  obtain ⟨⟨⟨h1, h2⟩, h3⟩, h4⟩ := ha
  rw [stringmatchlen]
  · exact h1
  · exact h2
  · exact h3
  · intro x ps1 h _; exact h4 h

theorem stringmatchlen_literal_star (q : List Char) (hq : ∀ c ∈ q, isGlobSpecial c = false)
    (hne : q ≠ []) (s : List Char) :
    stringmatchlen (q ++ ['*']) s = true ↔ q <+: s := by
  induction q generalizing s with
  | nil => exact absurd rfl hne
  | cons a q ih =>
    have ha : isGlobSpecial a = false := hq a (List.mem_cons_self _ _)
    cases s with
    | nil =>
      rw [List.cons_append, stringmatchlen]
      simp
    | cons c cs =>
      rw [List.cons_append, stringmatchlen_literal_cons a _ c cs ha]
      by_cases hac : a = c
      · subst hac
        simp only [beq_self_eq_true, if_true]
        rw [List.prefix_cons_inj]
        cases q with
        | nil =>
          cases cs with
          | nil => simp
          | cons d ds =>
            simp only [List.isEmpty_cons, List.nil_append, Bool.false_eq_true, if_false]
            rw [stringmatchlen]
            simp
        | cons b q2 =>
          have hb : isGlobSpecial b = false :=
            hq b (List.mem_cons_of_mem _ (List.mem_cons_self _ _))
          have hb2 : (b == '*') = false := by
            simp only [isGlobSpecial, Bool.or_eq_false_iff] at hb
            exact hb.1.1.1
          cases cs with
          | nil =>
            simp [List.dropWhile_cons, hb2]
          | cons d ds =>
            simp only [List.isEmpty_cons, Bool.false_eq_true, if_false]
            exact ih (fun x hx => hq x (List.mem_cons_of_mem _ hx)) (List.cons_ne_nil _ _) _
      · have h1 : (a == c) = false := by simpa using hac
        simp only [h1, Bool.false_eq_true, if_false, false_iff]
        intro hp
        have := List.IsPrefix.head hp
        simp at this
        exact hac this

/-! ## C4: the batch-exists script and `BatchKeyExist` -/

/-- C4. On a server whose script cache maps `batchExistSha` to the batch-exists
script, for every store and every key list: the script replies 1 exactly when
every listed key is held, `BatchKeyExist` returns that as a boolean with a nil
error, the store is left as it was, and the `EXISTS` commands issued are those
for the keys before the first missing one followed by that missing key alone
(nothing is looked up after the first miss). -/
theorem BatchKeyExist_true_iff_all_exist (glob : String → String → Bool) (r : RedisLayer)
    (srv : Server) (keys : List String)
    (hsha : srv.scripts.lookup r.batchExistSha = some Script.batchKeyExist) :
    ((batchKeyExistScript srv.store keys).reply = 1 ↔ ∀ k ∈ keys, srv.store.has k = true) ∧
    ((batchKeyExistScript srv.store keys).reply = 0 ↔ ∃ k ∈ keys, srv.store.has k = false) ∧
    ((r.BatchKeyExist glob srv keys).1 = true ↔ ∀ k ∈ keys, srv.store.has k = true) ∧
    (r.BatchKeyExist glob srv keys).2 = none ∧
    (batchKeyExistScript srv.store keys).store = srv.store ∧
    (batchKeyExistScript srv.store keys).trace =
      (keys.takeWhile (fun k => srv.store.has k) ++
        (keys.dropWhile (fun k => srv.store.has k)).take 1).map RedisCall.EXISTS := by
  have hr := batchKeyExistScript_reply srv.store keys
  have hall : (keys.all (fun k => srv.store.has k) = true) ↔ ∀ k ∈ keys, srv.store.has k = true := by
    simp [List.all_eq_true]
  refine ⟨?_, ?_, ?_, ?_, batchKeyExistScript_store _ _, batchKeyExistScript_trace _ _⟩
  · rw [hr, ← hall]
    by_cases h : keys.all (fun k => srv.store.has k) = true <;> simp [h]
  · rw [hr]
    by_cases h : keys.all (fun k => srv.store.has k) = true
    · simp only [h, if_true, one_ne_zero, false_iff, not_exists, not_and, Bool.not_eq_false]
      exact hall.mp h
    · have hex : ∃ k ∈ keys, srv.store.has k = false := by
        by_contra hne
        apply h
        rw [hall]
        intro k hk
        by_contra hk2
        exact hne ⟨k, hk, by simpa using hk2⟩
      simp [h, hex]
  · simp only [RedisLayer.BatchKeyExist, Server.evalSha, hsha, hr, ← hall]
    by_cases h : keys.all (fun k => srv.store.has k) = true <;> simp [h]
  · simp only [RedisLayer.BatchKeyExist, Server.evalSha, hsha]

/-- C4 at three keys of which two are held: the result is false, and the third
key is the last one looked up. -/
theorem BatchKeyExist_true_iff_all_exist_witness :
    (RedisLayer.BatchKeyExist stringmatch ⟨some 0, 0, "app", "sha1", "sha2"⟩
        ⟨[("a", "1"), ("c", "3")], [("sha1", Script.batchKeyExist)]⟩ ["a", "b", "c"]).1 = false ∧
    (batchKeyExistScript [("a", "1"), ("c", "3")] ["a", "b", "c"]).trace =
      [RedisCall.EXISTS "a", RedisCall.EXISTS "b"] := by
  have h := BatchKeyExist_true_iff_all_exist stringmatch ⟨some 0, 0, "app", "sha1", "sha2"⟩
    ⟨[("a", "1"), ("c", "3")], [("sha1", Script.batchKeyExist)]⟩ ["a", "b", "c"] (by decide)
  refine ⟨?_, by decide⟩
  have h3 := h.2.2.1
  by_contra hne
  have := h3.mp (by simpa using hne) "b" (by simp)
  revert this
  decide

/-! ## C5: the chunks of the clean-cache script -/

theorem keys5000_length : keys5000.length = 5000 := by
  simp [keys5000]

theorem cleanCacheLoop_keys5000 :
    cleanCacheLoop keys5000 1 = [RedisCall.DEL ("defaultKey" :: keys5000)] := by
  have hlen := keys5000_length
  rw [cleanCacheLoop, if_pos (by omega), cleanCacheLoop, if_neg (by omega)]
  have h : unpack keys5000 1 (min (1 + 4999) keys5000.length) = keys5000 := by
    simp only [unpack, Nat.sub_self, List.drop_zero]
    apply List.take_of_length_le
    omega
  rw [h]

theorem stringmatch_orders (n : Nat) :
    stringmatch "orders:*" ("orders:" ++ toString n) = true := by
  have h := stringmatchlen_literal_star "orders:".toList (by decide) (by decide)
    ("orders:" ++ toString n).toList
  have h2 : "orders:*".toList = "orders:".toList ++ ['*'] := by decide
  rw [stringmatch, h2, h]
  exact ⟨(toString n).toList, by simp [String.toList]⟩

theorem KEYS_store5000 : store5000.KEYS stringmatch "orders:*" = keys5000 := by
  have hf : store5000.filter (fun e => stringmatch "orders:*" e.1) = store5000 := by
    rw [List.filter_eq_self]
    intro e he
    simp only [store5000, keys5000, List.map_map, List.mem_map, List.mem_range,
      Function.comp] at he
    obtain ⟨n, -, rfl⟩ := he
    exact stringmatch_orders n
  rw [Store.KEYS, hf, store5000, List.map_map]
  exact List.map_id _

/-- C5, the claim as stated fails at 5000 matched keys: on a store holding 5000
keys under `orders:` the script issues a single `del`, and that command names
5001 keys, the literal `defaultKey` before the 5000 matched ones. -/
theorem cleanCacheScript_del_names_5001 :
    (cleanCacheScript stringmatch store5000 "orders:*").trace =
      [RedisCall.KEYS "orders:*", RedisCall.DEL ("defaultKey" :: keys5000)] ∧
    (RedisCall.DEL ("defaultKey" :: keys5000)).names.length = 5001 ∧
    ¬ (∀ d ∈ (cleanCacheScript stringmatch store5000 "orders:*").trace,
        d.names.length ≤ 5000) := by
  have ht : (cleanCacheScript stringmatch store5000 "orders:*").trace =
      [RedisCall.KEYS "orders:*", RedisCall.DEL ("defaultKey" :: keys5000)] := by
    simp only [cleanCacheScript, KEYS_store5000, cleanCacheLoop_keys5000]
  have hn : (RedisCall.DEL ("defaultKey" :: keys5000)).names.length = 5001 := by
    simp [RedisCall.names, keys5000_length]
  refine ⟨ht, hn, ?_⟩
  intro hall
  have := hall (RedisCall.DEL ("defaultKey" :: keys5000)) (by rw [ht]; simp)
  omega

/-- C5 as amended. For every store, matcher and pattern, with `n` the number of
keys `KEYS` returns: the script replies 1; its commands are the `KEYS` followed
by `ceil(n / 5000)` `del` commands; each `del` names the literal `defaultKey`
followed by between 1 and 5000 matched keys (at most 5001 names); the matched
keys carried by the successive commands, concatenated in order, are exactly the
matched list; and with no match there is no `del` at all. -/
theorem cleanCacheScript_chunks (glob : String → String → Bool) (store : Store)
    (pattern : String) :
    (cleanCacheScript glob store pattern).reply = 1 ∧
    (cleanCacheScript glob store pattern).trace =
      RedisCall.KEYS pattern :: cleanCacheLoop (store.KEYS glob pattern) 1 ∧
    (cleanCacheLoop (store.KEYS glob pattern) 1).length =
      ((store.KEYS glob pattern).length + 4999) / 5000 ∧
    (∀ d ∈ cleanCacheLoop (store.KEYS glob pattern) 1,
      ∃ chunk, d = RedisCall.DEL ("defaultKey" :: chunk) ∧ 1 ≤ chunk.length ∧
        chunk.length ≤ 5000 ∧ d.names.length ≤ 5001) ∧
    ((cleanCacheLoop (store.KEYS glob pattern) 1).map RedisCall.carried).flatten =
      store.KEYS glob pattern ∧
    ((store.KEYS glob pattern).length = 0 ↔ cleanCacheLoop (store.KEYS glob pattern) 1 = []) := by
  have hlen := cleanCacheLoop_length (store.KEYS glob pattern) 1 (Nat.le_refl 1)
  have hlen2 : (cleanCacheLoop (store.KEYS glob pattern) 1).length =
      ((store.KEYS glob pattern).length + 4999) / 5000 := by
    rw [hlen]
    have h : (store.KEYS glob pattern).length + 5000 - 1 =
        (store.KEYS glob pattern).length + 4999 := by omega
    rw [h]
  refine ⟨rfl, rfl, hlen2, ?_, ?_, ?_⟩
  · intro d hd
    obtain ⟨chunk, rfl, h1, h2⟩ := cleanCacheLoop_mem _ 1 (Nat.le_refl 1) d hd
    exact ⟨chunk, rfl, h1, h2, by simp only [RedisCall.names, List.length_cons]; omega⟩
  · have := cleanCacheLoop_carried (store.KEYS glob pattern) 1 (Nat.le_refl 1)
    simpa using this
  · rw [← List.length_eq_zero, hlen2]
    omega

/-! ## C2: what `DeleteKeysWithPrefix` leaves in the store -/

theorem DeleteKeysWithPrefix_has (glob : String → String → Bool) (r : RedisLayer)
    (srv : Server) (p k : String) (hk : k ≠ "defaultKey")
    (hm : glob (p ++ ":*") k = false) :
    (r.DeleteKeysWithPrefix glob srv p).1.store.has k = srv.store.has k := by
  unfold RedisLayer.DeleteKeysWithPrefix Server.evalSha
  cases hl : srv.scripts.lookup r.cleanCacheSha with
  | none => rfl
  | some sc =>
    cases sc with
    | batchKeyExist => exact congrArg (fun s => Store.has s k) (batchKeyExistScript_store _ _)
    | cleanCache =>
      show (cleanCacheScript glob srv.store (p ++ ":*")).store.has k = _
      rw [cleanCacheScript_has glob srv.store (p ++ ":*") k hk, hm]
      simp

theorem stringmatch_literal_prefix (p k : String)
    (hp : ∀ c ∈ p.toList, isGlobSpecial c = false) :
    stringmatch (p ++ ":*") k = true ↔ (p ++ ":").toList <+: k.toList := by
  have h1 : (p ++ ":*").toList = (p ++ ":").toList ++ ['*'] := by
    simp [String.toList]
  have h2 : (p ++ ":").toList = p.toList ++ [':'] := by
    simp [String.toList]
  rw [stringmatch, h1]
  apply stringmatchlen_literal_star
  · intro c hc
    rw [h2, List.mem_append] at hc
    rcases hc with hc | hc
    · exact hp c hc
    · simp only [List.mem_singleton] at hc
      subst hc
      decide
  · rw [h2]
    simp

/-- C2, the claim as stated fails: with `orders:1` and `defaultKey` in the
store, `DeleteKeysWithPrefix("orders")` removes `defaultKey`, which does not
begin with `orders:`; and with the prefix `*` the pattern `*:*` removes
`users:42`, which does not begin with `*:`. -/
theorem DeleteKeysWithPrefix_removes_other_keys :
    (¬ ("orders" ++ ":").toList <+: "defaultKey".toList) ∧
    Store.has [("orders:1", "a"), ("defaultKey", "b")] "defaultKey" = true ∧
    (RedisLayer.DeleteKeysWithPrefix stringmatch ⟨some 0, 0, "app", "sha1", "sha2"⟩
      ⟨[("orders:1", "a"), ("defaultKey", "b")],
        [("sha1", Script.batchKeyExist), ("sha2", Script.cleanCache)]⟩
      "orders").1.store.has "defaultKey" = false ∧
    (¬ ("*" ++ ":").toList <+: "users:42".toList) ∧
    Store.has [("users:42", "c")] "users:42" = true ∧
    (RedisLayer.DeleteKeysWithPrefix stringmatch ⟨some 0, 0, "app", "sha1", "sha2"⟩
      ⟨[("users:42", "c")],
        [("sha1", Script.batchKeyExist), ("sha2", Script.cleanCache)]⟩
      "*").1.store.has "users:42" = false := by
  refine ⟨by decide, by decide, ?_, by decide, by decide, ?_⟩
  · simp [RedisLayer.DeleteKeysWithPrefix, Server.evalSha, List.lookup, cleanCacheScript,
      Store.KEYS, stringmatch, stringmatchlen, cleanCacheLoop, unpack, RedisCall.apply,
      Store.DEL, Store.has]
  · simp [RedisLayer.DeleteKeysWithPrefix, Server.evalSha, List.lookup, cleanCacheScript,
      Store.KEYS, stringmatch, stringmatchlen, cleanCacheLoop, unpack, RedisCall.apply,
      Store.DEL, Store.has, List.tails]

/-- C2 as amended. For every server, matcher and prefix `p`, a key other than
the literal `defaultKey` that the pattern `p:*` does not match is held after
`DeleteKeysWithPrefix(p)` exactly when it was held before; and when `p` has
none of the pattern characters `*`, `?`, `[`, `\`, this covers every such key
that does not begin with `p:`. -/
theorem DeleteKeysWithPrefix_keeps_unmatched (glob : String → String → Bool)
    (r : RedisLayer) (srv : Server) (p k : String) (hk : k ≠ "defaultKey") :
    (glob (p ++ ":*") k = false →
      (r.DeleteKeysWithPrefix glob srv p).1.store.has k = srv.store.has k) ∧
    ((∀ c ∈ p.toList, isGlobSpecial c = false) → ¬ ((p ++ ":").toList <+: k.toList) →
      (r.DeleteKeysWithPrefix stringmatch srv p).1.store.has k = srv.store.has k) := by
  refine ⟨DeleteKeysWithPrefix_has glob r srv p k hk, ?_⟩
  intro hp hpre
  apply DeleteKeysWithPrefix_has stringmatch r srv p k hk
  have := stringmatch_literal_prefix p k hp
  cases hs : stringmatch (p ++ ":*") k with
  | false => rfl
  | true => exact absurd (this.mp hs) hpre

/-- C2 as amended, at the store of `orders:1`, `defaultKey` and `users:42` with
the prefix `orders`: `users:42` is still held, by either half of the
statement. -/
theorem DeleteKeysWithPrefix_keeps_unmatched_witness :
    (RedisLayer.DeleteKeysWithPrefix stringmatch ⟨some 0, 0, "app", "sha1", "sha2"⟩
      ⟨[("orders:1", "a"), ("defaultKey", "b"), ("users:42", "c")],
        [("sha1", Script.batchKeyExist), ("sha2", Script.cleanCache)]⟩
      "orders").1.store.has "users:42" = true ∧
    (RedisLayer.DeleteKeysWithPrefix stringmatch ⟨some 0, 0, "app", "sha1", "sha2"⟩
      ⟨[("orders:1", "a"), ("defaultKey", "b"), ("users:42", "c")],
        [("sha1", Script.batchKeyExist), ("sha2", Script.cleanCache)]⟩
      "orders").1.store.has "users:42" =
      Store.has [("orders:1", "a"), ("defaultKey", "b"), ("users:42", "c")] "users:42" :=
  ⟨((DeleteKeysWithPrefix_keeps_unmatched stringmatch ⟨some 0, 0, "app", "sha1", "sha2"⟩
      ⟨[("orders:1", "a"), ("defaultKey", "b"), ("users:42", "c")],
        [("sha1", Script.batchKeyExist), ("sha2", Script.cleanCache)]⟩
      "orders" "users:42" (by decide)).2 (by decide) (by decide)).trans (by decide),
    (DeleteKeysWithPrefix_keeps_unmatched stringmatch ⟨some 0, 0, "app", "sha1", "sha2"⟩
      ⟨[("orders:1", "a"), ("defaultKey", "b"), ("users:42", "c")],
        [("sha1", Script.batchKeyExist), ("sha2", Script.cleanCache)]⟩
      "orders" "users:42" (by decide)).1 (by simp [stringmatch, stringmatchlen])⟩

/-! ## C9 and C1: `BatchSetKeys` -/

theorem spreadLoop_eq (kvs : List Kv) (spreads : List String) :
    spreadLoop kvs spreads = spreads ++ kvs.flatMap (fun kv => [kv.Key, kv.Value]) := by
  induction kvs generalizing spreads with
  | nil => simp [spreadLoop]
  | cons kv rest ih => simp [spreadLoop, ih]

theorem cmdLoop_eq (ttl : Int) (kvs : List Kv) (cmds : List SetEx) :
    cmdLoop ttl kvs cmds =
      cmds ++ kvs.map (fun kv => ⟨kv.Key, kv.Value, wrapInt64 (ttl * 1000)⟩) := by
  induction kvs generalizing cmds with
  | nil => simp [cmdLoop]
  | cons kv rest ih => simp [cmdLoop, ih]

theorem flatMap_pairs_get (kvs : List Kv) (i : Nat) (hi : i < kvs.length) :
    (kvs.flatMap (fun kv => [kv.Key, kv.Value]))[2 * i]? = some (kvs[i]).Key ∧
    (kvs.flatMap (fun kv => [kv.Key, kv.Value]))[2 * i + 1]? = some (kvs[i]).Value := by
  induction kvs generalizing i with
  | nil => simp at hi
  | cons kv rest ih =>
    cases i with
    | zero => simp [List.flatMap_cons]
    | succ j =>
      have hj : j < rest.length := by simpa using hi
      have h := ih j hj
      have e1 : 2 * (j + 1) = (2 * j + 1) + 1 := by omega
      have e2 : 2 * (j + 1) + 1 = (2 * j + 1 + 1) + 1 := by omega
      simp only [List.flatMap_cons, List.cons_append, List.nil_append, e1, e2,
        List.getElem?_cons_succ, List.getElem_cons_succ]
      exact h

theorem flatMap_pairs_length (kvs : List Kv) :
    (kvs.flatMap (fun kv => [kv.Key, kv.Value])).length = 2 * kvs.length := by
  induction kvs with
  | nil => simp
  | cons kv rest ih => simp only [List.flatMap_cons, List.length_append, ih, List.length_cons,
      List.length_nil]; omega

/-- C9. With a base TTL of 0, for every list of pairs `BatchSetKeys` makes a
single call on the connection, an `MSet`; its argument list has length `2n` and
holds the pairs flattened in input order (argument `2i` is the key and
argument `2i+1` the value of pair `i`); no expiration goes with it, no jitter is
drawn, and the result is that call's error. -/
theorem BatchSetKeys_zero_ttl_single_MSet (r : RedisLayer) (kvs : List Kv)
    (msetResp : Option GoError) (multiResp : List (Option GoError)) (httl : r.ttl = 0) :
    ∃ spreads : List String,
      (r.BatchSetKeys kvs msetResp multiResp).calls = [ClientCall.MSet spreads] ∧
      spreads.length = 2 * kvs.length ∧
      (∀ i (hi : i < kvs.length),
        spreads[2 * i]? = some (kvs[i]).Key ∧ spreads[2 * i + 1]? = some (kvs[i]).Value) ∧
      (r.BatchSetKeys kvs msetResp multiResp).jitterCalls = [] ∧
      (r.BatchSetKeys kvs msetResp multiResp).err = msetResp := by
  refine ⟨kvs.flatMap (fun kv => [kv.Key, kv.Value]), ?_, flatMap_pairs_length kvs,
    fun i hi => flatMap_pairs_get kvs i hi, ?_, ?_⟩
  · simp [RedisLayer.BatchSetKeys, httl, spreadLoop_eq]
  · simp [RedisLayer.BatchSetKeys, httl]
  · simp [RedisLayer.BatchSetKeys, httl]

/-- C9 at two pairs and a failing `MSet`: the single call is `MSet a 1 b 2` and
its error is returned. -/
theorem BatchSetKeys_zero_ttl_single_MSet_witness :
    (RedisLayer.BatchSetKeys ⟨some 0, 0, "app", "sha1", "sha2"⟩
      [⟨"a", "1"⟩, ⟨"b", "2"⟩] (some "READONLY") []).err = some "READONLY" ∧
    ∃ spreads : List String,
      (RedisLayer.BatchSetKeys ⟨some 0, 0, "app", "sha1", "sha2"⟩
        [⟨"a", "1"⟩, ⟨"b", "2"⟩] (some "READONLY") []).calls = [ClientCall.MSet spreads] ∧
      spreads.length = 4 ∧ spreads[2]? = some "b" ∧ spreads[3]? = some "2" := by
  obtain ⟨spreads, h1, h2, h3, -, h5⟩ :=
    BatchSetKeys_zero_ttl_single_MSet ⟨some 0, 0, "app", "sha1", "sha2"⟩
      [⟨"a", "1"⟩, ⟨"b", "2"⟩] (some "READONLY") [] rfl
  exact ⟨h5, spreads, h1, h2, (h3 1 (by decide)).1, (h3 1 (by decide)).2⟩

/-- C1, the code at base TTL 1000 ms and two pairs: `BatchSetKeys` builds
`SET a 1 EX 1000000` and `SET b 2 EX 1000000`, the same fixed expiration of
`ttl*1000` seconds on both, and calls the jitter helper not at all, while
`SetKey` on the same layer draws once and sets an expiration in the band
around 1000 ms. -/
theorem BatchSetKeys_fixed_expiration :
    RedisLayer.BatchSetKeys ⟨some 0, 1000, "app", "sha1", "sha2"⟩
      [⟨"a", "1"⟩, ⟨"b", "2"⟩] none [none, none] =
      ⟨[ClientCall.DoMulti [⟨"a", "1", 1000000⟩, ⟨"b", "2", 1000000⟩]], [], none⟩ ∧
    RedisLayer.SetKey RandFloatingInt64 ⟨some 0, 1000, "app", "sha1", "sha2"⟩ 7
      ⟨"a", "1"⟩ none =
      ⟨[ClientCall.Set "a" "1" (970 * Millisecond)], [1000], none⟩ := by
  constructor <;> decide

/-! ## C7: `SetKey` -/

/-- C7, the claim as stated fails at base TTL 0: `SetKey` still calls the
jitter helper, once and on the base value 0; the computation is not skipped. -/
theorem SetKey_zero_ttl_calls_jitter :
    (RedisLayer.SetKey RandFloatingInt64 ⟨some 0, 0, "app", "sha1", "sha2"⟩ 0
      ⟨"k", "v"⟩ none).jitterCalls = [0] ∧
    (RedisLayer.SetKey RandFloatingInt64 ⟨some 0, 0, "app", "sha1", "sha2"⟩ 0
      ⟨"k", "v"⟩ none).jitterCalls ≠ [] := by
  constructor <;> decide

/-- C7 as amended. For every base TTL, 0 included, `SetKey` calls the jitter
helper exactly once, on the base TTL, and makes a single `Set` whose expiration
is the drawn value in milliseconds; it returns that call's error. At base TTL 0
the expiration is the helper's value on 0, which is the zero duration (no
expiration) whenever the helper maps 0 to 0. -/
theorem SetKey_one_jitter_call (jitter : Nat → Int → Int) (r : RedisLayer) (draw : Nat)
    (kv : Kv) (resp : Option GoError) :
    (r.SetKey jitter draw kv resp).jitterCalls = [r.ttl] ∧
    (r.SetKey jitter draw kv resp).calls =
      [ClientCall.Set kv.Key kv.Value (wrapInt64 (jitter draw r.ttl * Millisecond))] ∧
    (r.SetKey jitter draw kv resp).err = resp ∧
    (r.ttl = 0 → jitter draw 0 = 0 →
      (r.SetKey jitter draw kv resp).calls = [ClientCall.Set kv.Key kv.Value 0]) := by
  refine ⟨rfl, rfl, rfl, ?_⟩
  intro h0 hj
  have hw : wrapInt64 (0 * Millisecond) = 0 := by decide
  simp only [RedisLayer.SetKey, h0, hj, hw]

/-- C7 as amended, at base TTL 0 with the helper modelled from the spec: the
`Set` carries the zero duration. -/
theorem SetKey_one_jitter_call_witness :
    RandFloatingInt64 3 0 = 0 ∧
    (RedisLayer.SetKey RandFloatingInt64 ⟨some 0, 0, "app", "sha1", "sha2"⟩ 3
      ⟨"k", "v"⟩ none).calls = [ClientCall.Set "k" "v" 0] :=
  ⟨by decide,
    (SetKey_one_jitter_call RandFloatingInt64 ⟨some 0, 0, "app", "sha1", "sha2"⟩ 3
      ⟨"k", "v"⟩ none).2.2.2 rfl (by decide)⟩

/-! ## C3 and C6: `BatchGetValues` -/

theorem BatchGetValuesLoop_ok (err : Option GoError) (msgs : List RedisMessage)
    (vals strs : List String)
    (h : List.Forall₂ (fun (m : RedisMessage) v => m.Error = none ∧ m.ToString = Except.ok v)
      msgs vals) :
    BatchGetValuesLoop err msgs strs = Outcome.returned (some (strs ++ vals), none) := by
  induction h generalizing strs with
  | nil => simp [BatchGetValuesLoop]
  | cons hm _ ih =>
    simp only [BatchGetValuesLoop, hm.1, hm.2]
    rw [ih]
    simp

theorem BatchGetValuesLoop_panics (pre : List RedisMessage) (bad : RedisMessage)
    (post : List RedisMessage) (vals strs : List String)
    (h : List.Forall₂ (fun (m : RedisMessage) v => m.Error = none ∧ m.ToString = Except.ok v)
      pre vals)
    (e : GoError) (hbad : bad.Error = some e) :
    BatchGetValuesLoop none (pre ++ bad :: post) strs =
      Outcome.panicked "invalid memory address or nil pointer dereference" := by
  induction h generalizing strs with
  | nil =>
    simp only [List.nil_append, BatchGetValuesLoop, hbad]
  | cons hm _ ih =>
    simp only [List.cons_append, BatchGetValuesLoop, hm.1, hm.2]
    exact ih _

/-- C3, the code on a fetch that succeeded with one entry carrying an error (the
nil message of a missing key): `BatchGetValues` does not return; it panics on
`err.Error()`, `err` being the nil error of the fetch. The same happens after
an entry that was fine. -/
theorem BatchGetValues_error_entry_panics :
    (RedisLayer.BatchGetValues RandFloatingInt64 ⟨some 0, 1000, "app", "sha1", "sha2"⟩ 0
      ["a"] (Except.ok [("a", messageOf none)])).outcome =
      Outcome.panicked "invalid memory address or nil pointer dereference" ∧
    (RedisLayer.BatchGetValues RandFloatingInt64 ⟨some 0, 1000, "app", "sha1", "sha2"⟩ 0
      ["a", "b"] (Except.ok [("a", messageOf (some "1")), ("b", messageOf none)])).outcome =
      Outcome.panicked "invalid memory address or nil pointer dereference" := by
  constructor <;> rfl

theorem forall₂_value_of_all_ok (result : List (String × RedisMessage))
    (h : ∀ e ∈ result, e.2.Error = none ∧ ∃ v, e.2.ToString = Except.ok v) :
    List.Forall₂
      (fun (m : RedisMessage) v => m.Error = none ∧ m.ToString = Except.ok v)
      (result.map (fun kv => kv.2)) (result.map (fun kv => kv.2.value)) := by
  induction result with
  | nil => exact List.Forall₂.nil
  | cons e rest ih =>
    obtain ⟨h1, v, h2⟩ := h e (List.mem_cons_self _ _)
    refine List.Forall₂.cons ⟨h1, ?_⟩ (ih (fun x hx => h x (List.mem_cons_of_mem _ hx)))
    simp only [RedisMessage.value, h2]

theorem BatchGetValues_outcome_of_all_ok (jitter : Nat → Int → Int) (r : RedisLayer)
    (draw : Nat) (keys : List String) (result : List (String × RedisMessage))
    (h : ∀ e ∈ result, e.2.Error = none ∧ ∃ v, e.2.ToString = Except.ok v) :
    (r.BatchGetValues jitter draw keys (Except.ok result)).outcome =
      Outcome.returned (some (result.map (fun kv => kv.2.value)), none) := by
  simp only [RedisLayer.BatchGetValues]
  rw [BatchGetValuesLoop_ok none _ _ [] (forall₂_value_of_all_ok result h)]
  simp

theorem value_of_all_ok (result : List (String × RedisMessage))
    (h : ∀ e ∈ result, e.2.Error = none ∧ ∃ v, e.2.ToString = Except.ok v)
    (i : Nat) (h1 : i < result.length) :
    (result[i]).2.ToString = Except.ok (result[i]).2.value := by
  obtain ⟨-, v, hv⟩ := h result[i] (List.getElem_mem _)
  simp only [RedisMessage.value, hv]

/-- C6, the claim as stated fails: after `BatchSetKeys` of `a ↦ 1`, `b ↦ 2` the
fetch for the keys `a, b` is a map of two entries, a `range` over it may visit
`b` before `a`, and `BatchGetValues` then returns `2, 1`, not the values in the
order of the keys; and for the keys `a, a` the map has one entry, so one value
comes back for two requested keys. -/
theorem BatchGetValues_not_aligned_with_keys :
    ((RedisLayer.BatchSetKeys ⟨some 0, 0, "app", "sha1", "sha2"⟩
        [⟨"a", "1"⟩, ⟨"b", "2"⟩] none []).calls.foldl ClientCall.apply [] =
      [("a", "1"), ("b", "2")]) ∧
    List.Perm [("b", messageOf (some "2")), ("a", messageOf (some "1"))]
      (MGetCacheEntries [("a", "1"), ("b", "2")] ["a", "b"]) ∧
    (RedisLayer.BatchGetValues RandFloatingInt64 ⟨some 0, 0, "app", "sha1", "sha2"⟩ 0
      ["a", "b"]
      (Except.ok [("b", messageOf (some "2")), ("a", messageOf (some "1"))])).outcome =
      Outcome.returned (some ["2", "1"], none) ∧
    (RedisLayer.BatchGetValues RandFloatingInt64 ⟨some 0, 0, "app", "sha1", "sha2"⟩ 0
      ["a", "a"] (Except.ok (MGetCacheEntries [("a", "1"), ("b", "2")] ["a", "a"]))).outcome =
      Outcome.returned (some ["1"], none) := by
  refine ⟨by decide, ?_, rfl, ?_⟩
  · have h : MGetCacheEntries [("a", "1"), ("b", "2")] ["a", "b"] =
        [("a", messageOf (some "1")), ("b", messageOf (some "2"))] := by
      simp [MGetCacheEntries, Store.get, List.lookup]
    rw [h]
    exact List.Perm.swap _ _ _
  · have h : MGetCacheEntries [("a", "1"), ("b", "2")] ["a", "a"] =
        [("a", messageOf (some "1"))] := by
      simp [MGetCacheEntries, Store.get, List.lookup]
    rw [h]
    rfl

/-! ## C6: the store between `BatchSetKeys` and `BatchGetValues` -/

theorem lookup_map_set (s : Store) (k v k1 : String) :
    List.lookup k1 (s.map (fun e => if e.1 == k then (k, v) else e)) =
      if k1 = k then (if s.has k then some v else none) else List.lookup k1 s := by
  induction s with
  | nil => simp [Store.has]
  | cons e rest ih =>
    obtain ⟨a, b⟩ := e
    have hhas : Store.has ((a, b) :: rest) k = ((a == k) || Store.has rest k) := rfl
    rw [List.map_cons, hhas]
    by_cases hak : a = k
    · subst hak
      simp only [beq_self_eq_true, if_true, List.lookup_cons, Bool.true_or]
      by_cases h1 : k1 = a
      · subst h1
        simp
      · have h2 : (k1 == a) = false := by simpa using h1
        simp only [h2, h1, if_false]
        rw [ih, if_neg h1]
    · have hak2 : (a == k) = false := by simpa using hak
      simp only [hak2, Bool.false_eq_true, if_false, List.lookup_cons, Bool.false_or]
      by_cases h4 : k1 = a
      · subst h4
        simp [hak]
      · have h5 : (k1 == a) = false := by simpa using h4
        simp only [h5]
        exact ih

theorem lookup_append_single (s : Store) (k v k1 : String) :
    List.lookup k1 (s ++ [(k, v)]) =
      match List.lookup k1 s with
      | some x => some x
      | none => if k1 = k then some v else none := by
  induction s with
  | nil =>
    by_cases h : k1 = k
    · subst h
      simp [List.lookup]
    · have h2 : (k1 == k) = false := by simpa using h
      simp [List.lookup, h, h2]
  | cons e rest ih =>
    obtain ⟨a, b⟩ := e
    by_cases h : k1 = a
    · subst h
      simp [List.lookup]
    · have h2 : (k1 == a) = false := by simpa using h
      simp only [List.cons_append, List.lookup, h2]
      exact ih

theorem Store.has_iff_get (s : Store) (k : String) :
    s.has k = true ↔ ∃ v, s.get k = some v := by
  induction s with
  | nil => simp [Store.has, Store.get, List.lookup]
  | cons e rest ih =>
    obtain ⟨a, b⟩ := e
    simp only [Store.has, Store.get, List.any_cons] at ih ⊢
    by_cases h : k = a
    · subst h
      simp [List.lookup]
    · have h2 : (k == a) = false := by simpa using h
      have h3 : (a == k) = false := by
        simp only [beq_eq_false_iff_ne, ne_eq]
        exact fun h' => h h'.symm
      simp only [h3, Bool.false_or, List.lookup, h2]
      exact ih

theorem Store.get_SET_self (s : Store) (k v : String) :
    (s.SET k v).get k = some v := by
  by_cases h : s.has k = true
  · simp only [Store.SET, h, if_true, Store.get, lookup_map_set]
  · have hn : s.get k = none := by
      cases hg : s.get k with
      | none => rfl
      | some x => exact absurd ((Store.has_iff_get s k).mpr ⟨x, hg⟩) h
    simp only [Store.get] at hn
    simp only [Store.SET, h, Store.get, Bool.false_eq_true, if_false]
    rw [lookup_append_single, hn]
    simp

theorem Store.get_SET_other (s : Store) (k v k1 : String) (hne : k1 ≠ k) :
    (s.SET k v).get k1 = s.get k1 := by
  by_cases h : s.has k = true
  · simp only [Store.SET, h, if_true, Store.get, lookup_map_set, hne, if_false]
  · simp only [Store.SET, h, Store.get, Bool.false_eq_true, if_false]
    rw [lookup_append_single]
    cases List.lookup k1 s with
    | none => simp [hne]
    | some x => rfl

theorem Store.get_setAll_not_mem (kvs : List Kv) (s : Store) (k : String)
    (hk : k ∉ kvs.map (fun kv => kv.Key)) :
    (s.setAll kvs).get k = s.get k := by
  induction kvs generalizing s with
  | nil => rfl
  | cons kv rest ih =>
    simp only [List.map_cons, List.mem_cons, not_or] at hk
    simp only [Store.setAll, List.foldl_cons]
    have := ih (s.SET kv.Key kv.Value) hk.2
    simp only [Store.setAll] at this
    rw [this, Store.get_SET_other _ _ _ _ hk.1]

theorem Store.get_setAll_mem (kvs : List Kv) (s : Store)
    (hnd : (kvs.map (fun kv => kv.Key)).Nodup) (kv : Kv) (hkv : kv ∈ kvs) :
    (s.setAll kvs).get kv.Key = some kv.Value := by
  induction kvs generalizing s with
  | nil => cases hkv
  | cons hd rest ih =>
    simp only [List.map_cons, List.nodup_cons] at hnd
    simp only [Store.setAll, List.foldl_cons]
    rcases List.mem_cons.mp hkv with rfl | hmem
    · have := Store.get_setAll_not_mem rest (s.SET kv.Key kv.Value) kv.Key hnd.1
      simp only [Store.setAll] at this
      rw [this, Store.get_SET_self]
    · have := ih (s.SET hd.Key hd.Value) hnd.2 hmem
      simpa only [Store.setAll] using this

theorem Store.MSET_pairs (kvs : List Kv) (s : Store) :
    s.MSET (kvs.flatMap (fun kv => [kv.Key, kv.Value])) = s.setAll kvs := by
  induction kvs generalizing s with
  | nil => simp [Store.MSET, Store.setAll]
  | cons kv rest ih =>
    simp only [List.flatMap_cons, List.cons_append, List.nil_append, Store.MSET,
      Store.setAll, List.foldl_cons]
    have := ih (s.SET kv.Key kv.Value)
    simpa only [Store.setAll] using this

theorem BatchSetKeys_store (r : RedisLayer) (kvs : List Kv) (msetResp : Option GoError)
    (multiResp : List (Option GoError)) (s : Store) :
    (r.BatchSetKeys kvs msetResp multiResp).calls.foldl ClientCall.apply s = s.setAll kvs := by
  by_cases h : r.ttl = 0
  · simp [RedisLayer.BatchSetKeys, h, ClientCall.apply, spreadLoop_eq, Store.MSET_pairs]
  · simp [RedisLayer.BatchSetKeys, h, ClientCall.apply, cmdLoop_eq, List.foldl_map,
      Store.setAll]

theorem MGetCacheEntries_all_ok (s : Store) (keys : List String)
    (hheld : ∀ k ∈ keys, s.has k = true) (visit : List (String × RedisMessage))
    (hperm : visit.Perm (MGetCacheEntries s keys)) :
    ∀ e ∈ visit, e.1 ∈ keys ∧ e.2.Error = none ∧
      ∃ v, s.get e.1 = some v ∧ e.2.ToString = Except.ok v := by
  intro e he
  have hmem := (hperm.mem_iff).mp he
  simp only [MGetCacheEntries, List.mem_map, List.mem_dedup] at hmem
  obtain ⟨k, hk, rfl⟩ := hmem
  obtain ⟨v, hv⟩ := (Store.has_iff_get s k).mp (hheld k hk)
  refine ⟨hk, ?_, v, hv, ?_⟩
  · simp only [hv, messageOf]
  · simp only [hv, messageOf]

theorem MGetCacheEntries_values (s : Store) (keys : List String)
    (visit : List (String × RedisMessage))
    (hperm : visit.Perm (MGetCacheEntries s keys)) :
    (visit.map (fun kv => kv.2.value)).Perm
      (keys.dedup.map (fun k => (messageOf (s.get k)).value)) := by
  have := hperm.map (fun kv => kv.2.value)
  simpa only [MGetCacheEntries, List.map_map, Function.comp] using this

/-- C6 as amended. (1) For every store, every list of requested keys that are
all held, and every order in which the loop visits the map the fetch returned
for them (one entry per distinct requested key), `BatchGetValues` returns,
with a nil error, one value per distinct requested key; its i-th element is
the string of the i-th visited entry, which is the value held under that
entry's key, a requested key; and the returned values are, up to order, exactly
the values held under the distinct requested keys. (2) So `BatchSetKeys`
returning nil on pairs with pairwise distinct keys, followed by
`BatchGetValues` on the same keys, returns the supplied values, each once, in
some order. (3) For any fetched collection in which no entry carries an error
and every entry converts to a string, the result has the collection's length
and its i-th element is the string of the i-th visited entry. -/
theorem BatchGetValues_returns_held_values (jitter : Nat → Int → Int) (r : RedisLayer)
    (draw : Nat) :
    (∀ (s : Store) (keys : List String) (visit : List (String × RedisMessage)),
      visit.Perm (MGetCacheEntries s keys) → (∀ k ∈ keys, s.has k = true) →
      ∃ vals : List String,
        (r.BatchGetValues jitter draw keys (Except.ok visit)).outcome =
          Outcome.returned (some vals, none) ∧
        vals.length = keys.dedup.length ∧
        (∀ i (h1 : i < visit.length) (h2 : i < vals.length),
          (visit[i]).2.ToString = Except.ok vals[i] ∧ (visit[i]).1 ∈ keys ∧
          s.get (visit[i]).1 = some vals[i]) ∧
        (vals.map some).Perm (keys.dedup.map (fun k => s.get k))) ∧
    (∀ (s0 : Store) (kvs : List Kv) (msetResp : Option GoError)
      (multiResp : List (Option GoError)) (visit : List (String × RedisMessage)),
      (kvs.map (fun kv => kv.Key)).Nodup →
      (r.BatchSetKeys kvs msetResp multiResp).err = none →
      visit.Perm (MGetCacheEntries
        ((r.BatchSetKeys kvs msetResp multiResp).calls.foldl ClientCall.apply s0)
        (kvs.map (fun kv => kv.Key))) →
      ∃ vals : List String,
        (r.BatchGetValues jitter draw (kvs.map (fun kv => kv.Key))
          (Except.ok visit)).outcome = Outcome.returned (some vals, none) ∧
        vals.Perm (kvs.map (fun kv => kv.Value)) ∧ vals.length = kvs.length) ∧
    (∀ (keys : List String) (result : List (String × RedisMessage)),
      (∀ e ∈ result, e.2.Error = none ∧ ∃ v, e.2.ToString = Except.ok v) →
      ∃ vals : List String,
        (r.BatchGetValues jitter draw keys (Except.ok result)).outcome =
          Outcome.returned (some vals, none) ∧
        vals.length = result.length ∧
        ∀ i (h1 : i < result.length) (h2 : i < vals.length),
          (result[i]).2.ToString = Except.ok vals[i]) := by
  refine ⟨?_, ?_, ?_⟩
  · intro s keys visit hperm hheld
    have hall := MGetCacheEntries_all_ok s keys hheld visit hperm
    have hok : ∀ e ∈ visit, e.2.Error = none ∧ ∃ v, e.2.ToString = Except.ok v :=
      fun e he => ⟨(hall e he).2.1, (hall e he).2.2.imp (fun _ hv => hv.2)⟩
    refine ⟨_, BatchGetValues_outcome_of_all_ok jitter r draw keys visit hok, ?_, ?_, ?_⟩
    · rw [List.length_map, hperm.length_eq]
      simp [MGetCacheEntries]
    · intro i h1 h2
      obtain ⟨hk, -, v, hg, hv⟩ := hall visit[i] (List.getElem_mem _)
      have hval : (visit[i]).2.value = v := by simp only [RedisMessage.value, hv]
      simp only [List.getElem_map, hval]
      exact ⟨hv, hk, hg⟩
    · have hp := (MGetCacheEntries_values s keys visit hperm).map some
      have he : (keys.dedup.map (fun k => (messageOf (s.get k)).value)).map some =
          keys.dedup.map (fun k => s.get k) := by
        rw [List.map_map]
        apply List.map_congr_left
        intro k hk
        obtain ⟨v, hv⟩ := (Store.has_iff_get s k).mp (hheld k (List.mem_dedup.mp hk))
        simp [hv, messageOf, RedisMessage.value]
      rw [he] at hp
      exact hp
  · intro s0 kvs msetResp multiResp visit hnd _ hperm
    rw [BatchSetKeys_store] at hperm
    have hget : ∀ kv ∈ kvs, (s0.setAll kvs).get kv.Key = some kv.Value :=
      fun kv hkv => Store.get_setAll_mem kvs s0 hnd kv hkv
    have hheld : ∀ k ∈ kvs.map (fun kv => kv.Key), (s0.setAll kvs).has k = true := by
      intro k hk
      obtain ⟨kv, hkv, rfl⟩ := List.mem_map.mp hk
      exact (Store.has_iff_get _ _).mpr ⟨kv.Value, hget kv hkv⟩
    have hall := MGetCacheEntries_all_ok _ _ hheld visit hperm
    have hok : ∀ e ∈ visit, e.2.Error = none ∧ ∃ v, e.2.ToString = Except.ok v :=
      fun e he => ⟨(hall e he).2.1, (hall e he).2.2.imp (fun _ hv => hv.2)⟩
    have hp := MGetCacheEntries_values _ _ visit hperm
    have he : (kvs.map (fun kv => kv.Key)).dedup.map
        (fun k => (messageOf ((s0.setAll kvs).get k)).value) =
        kvs.map (fun kv => kv.Value) := by
      rw [List.Nodup.dedup hnd, List.map_map]
      apply List.map_congr_left
      intro kv hkv
      simp [hget kv hkv, messageOf, RedisMessage.value]
    rw [he] at hp
    refine ⟨_, BatchGetValues_outcome_of_all_ok jitter r draw _ visit hok, hp, ?_⟩
    rw [hp.length_eq, List.length_map]
  · intro keys result hok
    refine ⟨_, BatchGetValues_outcome_of_all_ok jitter r draw keys result hok, by simp, ?_⟩
    intro i h1 h2
    simp only [List.getElem_map]
    exact value_of_all_ok result hok i h1

/-- C6 as amended, at `BatchSetKeys` of `a ↦ 1`, `b ↦ 2` on the empty store
followed by `BatchGetValues` on `a, b` with the map visited as `b` then `a`:
the values returned are a permutation of `1, 2`, and the first of them is the
value held under `b`. -/
theorem BatchGetValues_returns_held_values_witness :
    (∃ vals : List String,
      (RedisLayer.BatchGetValues RandFloatingInt64 ⟨some 0, 0, "app", "sha1", "sha2"⟩ 0
        ["a", "b"]
        (Except.ok [("b", messageOf (some "2")), ("a", messageOf (some "1"))])).outcome =
        Outcome.returned (some vals, none) ∧
      vals.Perm ["1", "2"] ∧ vals.length = 2) ∧
    (∃ vals : List String,
      (RedisLayer.BatchGetValues RandFloatingInt64 ⟨some 0, 0, "app", "sha1", "sha2"⟩ 0
        ["a", "b"]
        (Except.ok [("b", messageOf (some "2")), ("a", messageOf (some "1"))])).outcome =
        Outcome.returned (some vals, none) ∧
      vals[0]? = Store.get [("a", "1"), ("b", "2")] "b") := by
  have hentries : MGetCacheEntries [("a", "1"), ("b", "2")] ["a", "b"] =
      [("a", messageOf (some "1")), ("b", messageOf (some "2"))] := by
    simp [MGetCacheEntries, Store.get, List.lookup]
  have hperm : List.Perm [("b", messageOf (some "2")), ("a", messageOf (some "1"))]
      (MGetCacheEntries [("a", "1"), ("b", "2")] ["a", "b"]) := by
    rw [hentries]
    exact List.Perm.swap _ _ _
  have hstore : (RedisLayer.BatchSetKeys ⟨some 0, 0, "app", "sha1", "sha2"⟩
      [⟨"a", "1"⟩, ⟨"b", "2"⟩] none []).calls.foldl ClientCall.apply [] =
      [("a", "1"), ("b", "2")] := by decide
  constructor
  · exact (BatchGetValues_returns_held_values RandFloatingInt64
      ⟨some 0, 0, "app", "sha1", "sha2"⟩ 0).2.1 [] [⟨"a", "1"⟩, ⟨"b", "2"⟩] none []
      [("b", messageOf (some "2")), ("a", messageOf (some "1"))] (by decide) rfl
      (by rw [hstore]; exact hperm)
  · obtain ⟨vals, h1, h2, h3, -⟩ := (BatchGetValues_returns_held_values RandFloatingInt64
      ⟨some 0, 0, "app", "sha1", "sha2"⟩ 0).1 [("a", "1"), ("b", "2")] ["a", "b"]
      [("b", messageOf (some "2")), ("a", messageOf (some "1"))] hperm (by decide)
    have hlen : vals.length = 2 := by rw [h2]; decide
    refine ⟨vals, h1, ?_⟩
    have := (h3 0 (by decide) (by omega)).2.2
    rw [List.getElem?_eq_getElem (by omega)]
    exact this.symm

/-! ## C8 and C10: `Init` and `initScripts` -/

theorem initScripts_first_fails (env : StoreDouble) (w : Conn) (r : RedisLayer) (c : Nat)
    (e : GoError) (hcl : r.client = some c)
    (h1 : env.ScriptLoad w.scriptLoads.length Script.batchKeyExist = Except.error e) :
    RedisLayer.initScripts env w r =
      Outcome.returned
        (⟨w.newClientCalls, w.scriptLoads ++ [Script.batchKeyExist]⟩, r, some e) := by
  simp only [RedisLayer.initScripts, hcl, h1]

theorem initScripts_second_fails (env : StoreDouble) (w : Conn) (r : RedisLayer) (c : Nat)
    (sha1 : String) (e : GoError) (hcl : r.client = some c)
    (h1 : env.ScriptLoad w.scriptLoads.length Script.batchKeyExist = Except.ok sha1)
    (h2 : env.ScriptLoad (w.scriptLoads.length + 1) Script.cleanCache = Except.error e) :
    RedisLayer.initScripts env w r =
      Outcome.returned
        (⟨w.newClientCalls, w.scriptLoads ++ [Script.batchKeyExist, Script.cleanCache]⟩,
          ⟨r.client, r.ttl, r.keyPrefix, sha1, r.cleanCacheSha⟩, some e) := by
  simp [RedisLayer.initScripts, hcl, h1, h2]

theorem initScripts_both_ok (env : StoreDouble) (w : Conn) (r : RedisLayer) (c : Nat)
    (sha1 sha2 : String) (hcl : r.client = some c)
    (h1 : env.ScriptLoad w.scriptLoads.length Script.batchKeyExist = Except.ok sha1)
    (h2 : env.ScriptLoad (w.scriptLoads.length + 1) Script.cleanCache = Except.ok sha2) :
    RedisLayer.initScripts env w r =
      Outcome.returned
        (⟨w.newClientCalls, w.scriptLoads ++ [Script.batchKeyExist, Script.cleanCache]⟩,
          ⟨r.client, r.ttl, r.keyPrefix, sha1, sha2⟩, none) := by
  simp [RedisLayer.initScripts, hcl, h1, h2]

theorem initScripts_nil_client_panics (env : StoreDouble) (w : Conn) (r : RedisLayer)
    (hcl : r.client = none) :
    RedisLayer.initScripts env w r =
      Outcome.panicked "invalid memory address or nil pointer dereference" := by
  simp only [RedisLayer.initScripts, hcl]

theorem Init_nil_client_panics (env : StoreDouble) (w : Conn) (r : RedisLayer)
    (conf : CacheConfig) (pfx : String)
    (hm : conf.RedisConfig.Mode ≠ RedisConfigModeOptions)
    (hcl : conf.RedisConfig.Client = none) :
    RedisLayer.Init env w r conf pfx =
      Outcome.panicked "invalid memory address or nil pointer dereference" := by
  simp [RedisLayer.Init, hm, RedisLayer.initScripts, hcl]

theorem Init_eq_initScripts (env : StoreDouble) (w : Conn) (r : RedisLayer)
    (conf : CacheConfig) (pfx : String)
    (hc : (conf.RedisConfig.Mode = RedisConfigModeOptions ∧
        ∃ c, env.NewClient w.newClientCalls conf.RedisConfig.Options = Except.ok c) ∨
      (conf.RedisConfig.Mode ≠ RedisConfigModeOptions ∧
        ∃ c, conf.RedisConfig.Client = some c)) :
    ∃ cl : Nat, RedisLayer.Init env w r conf pfx =
      RedisLayer.initScripts env
        ⟨w.newClientCalls + (if conf.RedisConfig.Mode = RedisConfigModeOptions then 1 else 0),
          w.scriptLoads⟩
        ⟨some cl, conf.CacheTTL, pfx, r.batchExistSha, r.cleanCacheSha⟩ := by
  rcases hc with ⟨hm, c, hc⟩ | ⟨hm, c, hc⟩
  · exact ⟨c, by simp [RedisLayer.Init, hm, hc]⟩
  · exact ⟨c, by simp [RedisLayer.Init, hm, hc]⟩

theorem initScripts_spec (env : StoreDouble) (w : Conn) (r : RedisLayer) (c : Nat)
    (hcl : r.client = some c) :
    ∃ res, RedisLayer.initScripts env w r = Outcome.returned res ∧
      res.2.1.keyPrefix = r.keyPrefix ∧ res.2.1.ttl = r.ttl ∧ res.2.1.client = r.client ∧
      (∀ e, env.ScriptLoad w.scriptLoads.length Script.batchKeyExist = Except.error e →
        res.2.2 = some e ∧ res.1.scriptLoads = w.scriptLoads ++ [Script.batchKeyExist]) ∧
      (∀ s1 e, env.ScriptLoad w.scriptLoads.length Script.batchKeyExist = Except.ok s1 →
        env.ScriptLoad (w.scriptLoads.length + 1) Script.cleanCache = Except.error e →
        res.2.2 = some e ∧
        res.1.scriptLoads = w.scriptLoads ++ [Script.batchKeyExist, Script.cleanCache]) ∧
      (∀ s1 s2, env.ScriptLoad w.scriptLoads.length Script.batchKeyExist = Except.ok s1 →
        env.ScriptLoad (w.scriptLoads.length + 1) Script.cleanCache = Except.ok s2 →
        res.2.2 = none ∧ res.2.1.batchExistSha = s1 ∧ res.2.1.cleanCacheSha = s2 ∧
        res.1.scriptLoads = w.scriptLoads ++ [Script.batchKeyExist, Script.cleanCache]) ∧
      (res.2.2 = none ↔
        ∃ s1 s2, env.ScriptLoad w.scriptLoads.length Script.batchKeyExist = Except.ok s1 ∧
          env.ScriptLoad (w.scriptLoads.length + 1) Script.cleanCache = Except.ok s2) := by
  cases h1 : env.ScriptLoad w.scriptLoads.length Script.batchKeyExist with
  | error e1 =>
    refine ⟨_, initScripts_first_fails env w r c e1 hcl h1, rfl, rfl, rfl, ?_, ?_, ?_, ?_⟩
    · intro e he
      cases he
      exact ⟨rfl, rfl⟩
    · intro s1 e he
      cases he
    · intro s1 s2 he
      cases he
    · constructor
      · intro h
        cases h
      · rintro ⟨s1, s2, he, -⟩
        cases he
  | ok sha1 =>
    cases h2 : env.ScriptLoad (w.scriptLoads.length + 1) Script.cleanCache with
    | error e2 =>
      refine ⟨_, initScripts_second_fails env w r c sha1 e2 hcl h1 h2, rfl, rfl, rfl,
        ?_, ?_, ?_, ?_⟩
      · intro e he
        cases he
      · intro s1 e _ he
        cases he
        exact ⟨rfl, rfl⟩
      · intro s1 s2 _ he
        cases he
      · constructor
        · intro h
          cases h
        · rintro ⟨s1, s2, -, he⟩
          cases he
    | ok sha2 =>
      refine ⟨_, initScripts_both_ok env w r c sha1 sha2 hcl h1 h2, rfl, rfl, rfl,
        ?_, ?_, ?_, ?_⟩
      · intro e he
        cases he
      · intro s1 e _ he
        cases he
      · intro s1 s2 he1 he2
        cases he1
        cases he2
        exact ⟨rfl, rfl, rfl, rfl⟩
      · constructor
        · intro _
          exact ⟨sha1, sha2, rfl, rfl⟩
        · intro _
          rfl

/-- C8. Whenever `Init` gets a client (options mode with a successful
construction, or raw mode with a configured client that is not nil) it returns,
with the prefix passed to it stored in `keyPrefix`, and for the two
`ScriptLoad` answers of the store: if the first load fails its error is
returned and the second script is not loaded; if the first succeeds and the
second fails, the error of the second is returned; if both succeed nil is
returned and `batchExistSha` and `cleanCacheSha` hold the two references
returned; so nil is returned exactly when both loads succeed. `initScripts`
on its own, on a layer that has a client, returns the same error. -/
theorem Init_fails_iff_a_load_fails (env : StoreDouble) (w : Conn) (r : RedisLayer)
    (conf : CacheConfig) (pfx : String)
    (hc : (conf.RedisConfig.Mode = RedisConfigModeOptions ∧
        ∃ c, env.NewClient w.newClientCalls conf.RedisConfig.Options = Except.ok c) ∨
      (conf.RedisConfig.Mode ≠ RedisConfigModeOptions ∧
        ∃ c, conf.RedisConfig.Client = some c)) :
    ∃ res, RedisLayer.Init env w r conf pfx = Outcome.returned res ∧
      res.2.1.keyPrefix = pfx ∧
      (∀ e, env.ScriptLoad w.scriptLoads.length Script.batchKeyExist = Except.error e →
        res.2.2 = some e ∧ res.1.scriptLoads = w.scriptLoads ++ [Script.batchKeyExist]) ∧
      (∀ s1 e, env.ScriptLoad w.scriptLoads.length Script.batchKeyExist = Except.ok s1 →
        env.ScriptLoad (w.scriptLoads.length + 1) Script.cleanCache = Except.error e →
        res.2.2 = some e ∧
        res.1.scriptLoads = w.scriptLoads ++ [Script.batchKeyExist, Script.cleanCache]) ∧
      (∀ s1 s2, env.ScriptLoad w.scriptLoads.length Script.batchKeyExist = Except.ok s1 →
        env.ScriptLoad (w.scriptLoads.length + 1) Script.cleanCache = Except.ok s2 →
        res.2.2 = none ∧ res.2.1.batchExistSha = s1 ∧ res.2.1.cleanCacheSha = s2 ∧
        res.1.scriptLoads = w.scriptLoads ++ [Script.batchKeyExist, Script.cleanCache]) ∧
      (res.2.2 = none ↔
        ∃ s1 s2, env.ScriptLoad w.scriptLoads.length Script.batchKeyExist = Except.ok s1 ∧
          env.ScriptLoad (w.scriptLoads.length + 1) Script.cleanCache = Except.ok s2) ∧
      (∀ r0 c0, r0.client = some c0 →
        ∃ res0, RedisLayer.initScripts env w r0 = Outcome.returned res0 ∧
          res0.2.2 = res.2.2) := by
  obtain ⟨cl, hinit⟩ := Init_eq_initScripts env w r conf pfx hc
  obtain ⟨res, hres, hp, -, -, hf, hs, hb, hn⟩ := initScripts_spec env
    ⟨w.newClientCalls + (if conf.RedisConfig.Mode = RedisConfigModeOptions then 1 else 0),
      w.scriptLoads⟩
    ⟨some cl, conf.CacheTTL, pfx, r.batchExistSha, r.cleanCacheSha⟩ cl rfl
  refine ⟨res, hinit.trans hres, hp, hf, hs, hb, hn, ?_⟩
  intro r0 c0 hr0
  obtain ⟨res0, hres0, -, -, -, hf0, hs0, hb0, -⟩ := initScripts_spec env w r0 c0 hr0
  refine ⟨res0, hres0, ?_⟩
  cases h1 : env.ScriptLoad w.scriptLoads.length Script.batchKeyExist with
  | error e1 => rw [(hf0 e1 h1).1, (hf e1 h1).1]
  | ok sha1 =>
    cases h2 : env.ScriptLoad (w.scriptLoads.length + 1) Script.cleanCache with
    | error e2 => rw [(hs0 sha1 e2 h1 h2).1, (hs sha1 e2 h1 h2).1]
    | ok sha2 => rw [(hb0 sha1 sha2 h1 h2).1, (hb sha1 sha2 h1 h2).1]

/-- C8 on a store whose first load succeeds and whose second fails, raw mode
with the client 7: `Init` returns the error of the second load, after two
`ScriptLoad` calls. -/
theorem Init_fails_iff_a_load_fails_witness :
    ∃ res, RedisLayer.Init secondLoadFails ⟨0, []⟩ ⟨none, 0, "", "", ""⟩
        ⟨⟨RedisConfigModeRaw, "", some 7, false⟩, 60000, false⟩ "app" = Outcome.returned res ∧
      res.2.1.keyPrefix = "app" ∧ res.2.2 = some "EOF" ∧
      res.1.scriptLoads = [Script.batchKeyExist, Script.cleanCache] := by
  obtain ⟨res, h1, h2, -, h4, -⟩ :=
    Init_fails_iff_a_load_fails secondLoadFails ⟨0, []⟩ ⟨none, 0, "", "", ""⟩
      ⟨⟨RedisConfigModeRaw, "", some 7, false⟩, 60000, false⟩ "app"
      (Or.inr ⟨by decide, 7, rfl⟩)
  exact ⟨res, h1, h2, (h4 "sha-batch-exist" "EOF" rfl rfl).1,
    (h4 "sha-batch-exist" "EOF" rfl rfl).2⟩

theorem InitTimes_spec (env : StoreDouble) (conf : CacheConfig) (pfx : String)
    (hload : ∀ i s, ∃ sha, env.ScriptLoad i s = Except.ok sha)
    (hclient : (conf.RedisConfig.Mode = RedisConfigModeOptions ∧
        ∀ i, ∃ c, env.NewClient i conf.RedisConfig.Options = Except.ok c) ∨
      (conf.RedisConfig.Mode ≠ RedisConfigModeOptions ∧
        ∃ c, conf.RedisConfig.Client = some c))
    (n : Nat) (w : Conn) (r : RedisLayer) :
    ∃ res, RedisLayer.InitTimes env conf pfx n w r = Outcome.returned res ∧
      res.1.scriptLoads =
        w.scriptLoads ++
          (List.replicate n [Script.batchKeyExist, Script.cleanCache]).flatten ∧
      (1 ≤ n →
        res.2.keyPrefix = pfx ∧ res.2.ttl = conf.CacheTTL ∧ res.2.client ≠ none ∧
        env.ScriptLoad (w.scriptLoads.length + 2 * n - 2) Script.batchKeyExist =
          Except.ok res.2.batchExistSha ∧
        env.ScriptLoad (w.scriptLoads.length + 2 * n - 1) Script.cleanCache =
          Except.ok res.2.cleanCacheSha) := by
  induction n generalizing w r with
  | zero => exact ⟨(w, r), rfl, by simp, fun h => absurd h (by decide)⟩
  | succ n ih =>
    have hc : (conf.RedisConfig.Mode = RedisConfigModeOptions ∧
        ∃ c, env.NewClient w.newClientCalls conf.RedisConfig.Options = Except.ok c) ∨
        (conf.RedisConfig.Mode ≠ RedisConfigModeOptions ∧
          ∃ c, conf.RedisConfig.Client = some c) := by
      rcases hclient with ⟨hm, h⟩ | h
      · exact Or.inl ⟨hm, h _⟩
      · exact Or.inr h
    obtain ⟨cl, hinit⟩ := Init_eq_initScripts env w r conf pfx hc
    obtain ⟨s1, h1⟩ := hload w.scriptLoads.length Script.batchKeyExist
    obtain ⟨s2, h2⟩ := hload (w.scriptLoads.length + 1) Script.cleanCache
    rw [initScripts_both_ok env
      ⟨w.newClientCalls + (if conf.RedisConfig.Mode = RedisConfigModeOptions then 1 else 0),
        w.scriptLoads⟩
      ⟨some cl, conf.CacheTTL, pfx, r.batchExistSha, r.cleanCacheSha⟩ cl s1 s2 rfl h1 h2]
      at hinit
    simp only [RedisLayer.InitTimes, hinit]
    obtain ⟨res, hres, hl, hlayer⟩ := ih
      ⟨w.newClientCalls + (if conf.RedisConfig.Mode = RedisConfigModeOptions then 1 else 0),
        w.scriptLoads ++ [Script.batchKeyExist, Script.cleanCache]⟩
      ⟨some cl, conf.CacheTTL, pfx, s1, s2⟩
    refine ⟨res, hres, ?_, ?_⟩
    · rw [hl]
      simp [List.replicate_succ]
    · intro _
      cases n with
      | zero =>
        simp only [RedisLayer.InitTimes] at hres
        cases hres
        refine ⟨rfl, rfl, by simp, ?_, ?_⟩
        · simpa using h1
        · simpa using h2
      | succ m =>
        obtain ⟨a1, a2, a3, a4, a5⟩ := hlayer (by omega)
        refine ⟨a1, a2, a3, ?_, ?_⟩
        · have e : w.scriptLoads.length + 2 * (m + 1 + 1) - 2 =
              (w.scriptLoads ++ [Script.batchKeyExist, Script.cleanCache]).length +
                2 * (m + 1) - 2 := by
            simp only [List.length_append, List.length_cons, List.length_nil]
            omega
          rw [e]
          exact a4
        · have e : w.scriptLoads.length + 2 * (m + 1 + 1) - 1 =
              (w.scriptLoads ++ [Script.batchKeyExist, Script.cleanCache]).length +
                2 * (m + 1) - 1 := by
            simp only [List.length_append, List.length_cons, List.length_nil]
            omega
          rw [e]
          exact a5

/-- C10, the claim as stated fails at two invocations: `Init` run twice on the
same layer and configuration, options mode, on a store where everything
succeeds, makes four `ScriptLoad` calls (both scripts, twice) and constructs
two clients; `RedisConfig.InitClient`, which `Init` does not call, constructs
one client over two invocations. -/
theorem Init_twice_registers_twice :
    RedisLayer.InitTimes okDouble ⟨⟨RedisConfigModeOptions, "127.0.0.1:6379", none, false⟩,
        60000, false⟩ "app" 2 ⟨0, []⟩ ⟨none, 0, "", "", ""⟩ =
      Outcome.returned
        (⟨2, [Script.batchKeyExist, Script.cleanCache, Script.batchKeyExist,
            Script.cleanCache]⟩,
          ⟨some 1, 60000, "app", "sha-batch-exist", "sha-clean-cache"⟩) ∧
    RedisConfig.InitClient okDouble ⟨0, []⟩
        ⟨RedisConfigModeOptions, "127.0.0.1:6379", none, false⟩ =
      Outcome.returned (⟨1, []⟩,
        ⟨RedisConfigModeOptions, "127.0.0.1:6379", some 0, true⟩, some 0) ∧
    RedisConfig.InitClient okDouble ⟨1, []⟩
        ⟨RedisConfigModeOptions, "127.0.0.1:6379", some 0, true⟩ =
      Outcome.returned (⟨1, []⟩,
        ⟨RedisConfigModeOptions, "127.0.0.1:6379", some 0, true⟩, some 0) := by
  refine ⟨by decide, by decide, by decide⟩

/-- C10 as amended. `Init` has no once-guard of its own: for every `n`, `n`
invocations one after another on the same layer and configuration, on a
connection side where client construction and script loads succeed (raw mode:
the configured client is not nil), all return and send the store `2n`
`ScriptLoad` calls, the two scripts in order once per invocation; and for
`n ≥ 1` the layer ends up holding the prefix and TTL passed in, a client, and
as its two references the answers to the last two loads (calls `2n-2` and
`2n-1`), whatever it held before. -/
theorem Init_registers_on_every_call (env : StoreDouble) (conf : CacheConfig) (pfx : String)
    (hload : ∀ i s, ∃ sha, env.ScriptLoad i s = Except.ok sha)
    (hclient : (conf.RedisConfig.Mode = RedisConfigModeOptions ∧
        ∀ i, ∃ c, env.NewClient i conf.RedisConfig.Options = Except.ok c) ∨
      (conf.RedisConfig.Mode ≠ RedisConfigModeOptions ∧
        ∃ c, conf.RedisConfig.Client = some c))
    (n : Nat) (r : RedisLayer) :
    ∃ res, RedisLayer.InitTimes env conf pfx n ⟨0, []⟩ r = Outcome.returned res ∧
      res.1.scriptLoads =
        (List.replicate n [Script.batchKeyExist, Script.cleanCache]).flatten ∧
      res.1.scriptLoads.length = 2 * n ∧
      (1 ≤ n →
        res.2.keyPrefix = pfx ∧ res.2.ttl = conf.CacheTTL ∧ res.2.client ≠ none ∧
        env.ScriptLoad (2 * n - 2) Script.batchKeyExist = Except.ok res.2.batchExistSha ∧
        env.ScriptLoad (2 * n - 1) Script.cleanCache = Except.ok res.2.cleanCacheSha) := by
  obtain ⟨res, h1, h2, h3⟩ := InitTimes_spec env conf pfx hload hclient n ⟨0, []⟩ r
  refine ⟨res, h1, by simpa using h2, ?_, ?_⟩
  · rw [h2]
    simp [List.length_flatten, Nat.mul_comm]
  · intro hn
    simpa using h3 hn

/-- C10 as amended, at three invocations in raw mode on a store that answers
the `n`-th load with `sha-n`, starting from a layer that held other
references: six `ScriptLoad` calls, and the layer holds `app`, `sha-4` and
`sha-5`. -/
theorem Init_registers_on_every_call_witness :
    ∃ res, RedisLayer.InitTimes countingDouble
        ⟨⟨RedisConfigModeRaw, "", some 7, false⟩, 60000, false⟩
        "app" 3 ⟨0, []⟩ ⟨none, 0, "old", "old-1", "old-2"⟩ = Outcome.returned res ∧
      res.1.scriptLoads.length = 6 ∧
      res.2.keyPrefix = "app" ∧ res.2.batchExistSha = "sha-4" ∧
      res.2.cleanCacheSha = "sha-5" := by
  obtain ⟨res, h1, -, h3, h4⟩ :=
    Init_registers_on_every_call countingDouble
      ⟨⟨RedisConfigModeRaw, "", some 7, false⟩, 60000, false⟩ "app"
      (fun i _ => ⟨"sha-" ++ toString i, rfl⟩)
      (Or.inr ⟨by decide, 7, rfl⟩) 3 ⟨none, 0, "old", "old-1", "old-2"⟩
  obtain ⟨a1, -, -, a4, a5⟩ := h4 (by decide)
  refine ⟨res, h1, h3, a1, ?_, ?_⟩
  · have := Except.ok.inj a4
    rw [← this]
    decide
  · have := Except.ok.inj a5
    rw [← this]
    decide

end GormCache
